import Mathlib

/-!
Verification of the pdf2scorm document-reconstruction engine
(`backend/builders/lecture_builder.py`) and package serializer
(`backend/scorm_builder.py`).

Modelling conventions:
* Python floats (coordinates, font sizes, thresholds) are modelled as `ℚ`;
  decimal literals of the source (`1.3`, `25`, `0.9`, …) are taken at their
  decimal value.
* Python `round` is banker's rounding (round-half-to-even), modelled by
  `pyRound`.
* A bounding box is `Option (ℚ × ℚ × ℚ × ℚ)` = `(x0, y0, x1, y1)`;
  `none` models a falsy/short bbox (the code guards every access with
  `if bbox and len(bbox) >= 4`).  The dataclass default `(0.0,0.0,0.0,0.0)`
  is a truthy 4-tuple and is modelled as `some (0,0,0,0)`.
* `uuid.uuid4()` and all filesystem effects (file existence, copy success,
  base64 decode success, `statistics.stdev` floating-point results) are
  modelled by an explicit environment `FsEnv`; randomly generated ids of
  sections/pages are modelled as `""` (no claim mentions them).
* `str.isupper` / whitespace stripping are modelled for the Latin and
  Cyrillic alphabets the pipeline processes.
-/

/-- Python `round` on a rational: round half to even (banker's rounding). -/
def pyRound (q : ℚ) : ℤ :=
  let f := ⌊q⌋
  let r := q - (f : ℚ)
  if r < 1/2 then f
  else if (1 : ℚ)/2 < r then f + 1
  else if f % 2 = 0 then f else f + 1

/-- Python `statistics.mean` (callers guard against the empty list). -/
def pyMean (l : List ℚ) : ℚ := l.sum / l.length

/-- Python `statistics.median`: sort, take the middle element for odd length,
the mean of the two middle elements for even length (callers guard against
the empty list). -/
def pyMedian (l : List ℚ) : ℚ :=
  let s := l.mergeSort (· ≤ ·)
  if l.length % 2 = 1 then s.getD (l.length / 2) 0
  else (s.getD (l.length / 2 - 1) 0 + s.getD (l.length / 2) 0) / 2

/-- Python `str.isupper` for one character, for the Latin and Cyrillic
(incl. Ё) alphabets the pipeline processes. -/
def pyIsUpper (c : Char) : Bool :=
  (65 ≤ c.toNat && c.toNat ≤ 90) ||
  (1040 ≤ c.toNat && c.toNat ≤ 1071) || c.toNat = 1025

/-- Python `pathlib.PurePosixPath(p).is_absolute()`. -/
def pyIsAbsolute (p : String) : Bool := p.startsWith "/"

/-- Python `pathlib.Path(p).name`: the part after the last `/`. -/
def pyName (p : String) : String :=
  String.mk ((p.toList.reverse.takeWhile (· ≠ '/')).reverse)

/-- Python `pathlib.Path(p).suffix`: the extension of the final component,
empty when the name has no interior dot. -/
def pySuffix (p : String) : String :=
  let base := (pyName p).toList
  let tl := base.reverse.takeWhile (· ≠ '.')
  if tl.length = base.length then ""
  else if tl.length + 1 = base.length then ""   -- leading dot only, e.g. ".bashrc"
  else if tl = [] then ""                        -- trailing dot
  else String.mk ('.' :: tl.reverse)

/-- Python `s.split('\n')[0]`. -/
def pySplitNewlineHead (s : String) : String :=
  String.mk (s.toList.takeWhile (· ≠ '\n'))

/-- Python `s.rsplit(' ', 1)[0]`: everything before the last space
(the whole string when there is no space). -/
def pyRsplitSpaceHead (s : String) : String :=
  let r := s.toList.reverse
  match r.dropWhile (· ≠ ' ') with
  | [] => s
  | _ :: rest => String.mk rest.reverse

/-- Python list slicing `l[a:b]` for the non-negative indices used by the
builder (header global ordinals are proven non-negative). -/
def pySlice {α : Type} (l : List α) (a b : ℤ) : List α :=
  (l.take b.toNat).drop a.toNat

/-- Minimum of a list with a default for the empty list
(Python `min(...)` over a non-empty comprehension; callers guard). -/
def listMinD (d : ℚ) : List ℚ → ℚ
  | [] => d
  | x :: xs => xs.foldl min x

/-- Maximum of a list with a default for the empty list. -/
def listMaxD (d : ℚ) : List ℚ → ℚ
  | [] => d
  | x :: xs => xs.foldl max x

/-! ## Data model (`backend/models/lecture_model.py`) -/

/-- `ParsedElement`: an atomic span or image extracted from the PDF.
`text`/`imagePath` use `""` for Python `None`. -/
structure ParsedElement where
  type : String
  text : String := ""
  imagePath : String := ""
  fontSize : ℚ := 12
  isBold : Bool := false
  bbox : Option (ℚ × ℚ × ℚ × ℚ) := some (0, 0, 0, 0)
  pageNumber : ℤ := 0
  order : ℤ := 0
deriving DecidableEq, Repr, Inhabited

/-- The paragraph dictionary built by `_create_paragraph_dict`. -/
structure Paragraph where
  type : String
  spans : List ParsedElement
  text : String
  avgFontSize : ℚ
  isBold : Bool
  bbox : ℚ × ℚ × ℚ × ℚ
  pageNumber : ℤ
  isHeader : Bool
  headerLevel : ℕ
  numLines : ℕ
  globalIndex : ℤ
deriving DecidableEq, Repr, Inhabited

/-- A header record appended by `_identify_headers_from_paragraphs`. -/
structure Header where
  index : ℤ
  level : ℕ
  text : String
  paragraph : Paragraph
deriving DecidableEq, Repr, Inhabited

/-- `ContentBlock`: tagged variant over Text/Image/List/Table.  A Text block
keeps its style params and the back-reference to the source paragraph; an
Image block keeps alt/width/height params.  List/Table are never produced
by the reconstruction heuristics but are first-class variants. -/
inductive ContentBlock where
  | text (content : String) (fontSize : ℚ) (bold : Bool) (alignment : String)
      (sourceParagraph : Paragraph)
  | image (content : String) (alt : String) (width : Option ℚ) (height : Option ℚ)
  | list (items : List String)
  | table (rows : List (List String))
deriving DecidableEq, Repr

structure LecturePage where
  id : String
  title : String
  contentBlocks : List ContentBlock := []
  order : ℤ := 0
deriving DecidableEq, Repr

structure LectureSection where
  id : String
  title : String
  pages : List LecturePage := []
  order : ℤ := 0
deriving DecidableEq, Repr

/-- `Lecture`: the root model.  Of the metadata dict only `keywords` is ever
written by the builder. -/
structure Lecture where
  title : String
  description : String := ""
  language : String := "ru"
  sections : List LectureSection := []
  metadataKeywords : List String := []
deriving DecidableEq, Repr

/-! ## Effect environment

`uuid.uuid4()`, file existence, `shutil.copy2`/base64-decode success and the
floating-point `statistics.stdev` are modelled as an oracle environment. -/

structure FsEnv where
  fresh : ℕ → String
  fileExists : String → Bool
  copyOk : String → Bool
  b64SaveOk : String → Bool
  stdev : List ℚ → ℚ

/-! ## `_normalize_image_paths` (lecture_builder.py 102-214) -/

/-- The `ext_map` lookup with default `.png` (the format is lowercased first). -/
def extFromFormat (fmt : String) : String :=
  let f := fmt.toLower
  if f = "png" then ".png" else if f = "jpeg" then ".jpg" else if f = "jpg" then ".jpg"
  else if f = "gif" then ".gif" else if f = "webp" then ".webp" else ".png"

/-- Regex word character `\w` (ASCII). -/
def isWordChar (c : Char) : Bool := c.isAlphanum || c = '_'

/-- `re.match(r'data:image/(\w+);base64,(.+)', p)`: greedy word run, the
literal `;base64,`, then at least one non-newline character. -/
def dataUriMatch (p : String) : Option (String × String) :=
  if p.startsWith "data:image/" then
    let rest := p.drop 11
    let fmt := String.mk (rest.toList.takeWhile isWordChar)
    let after := rest.drop fmt.length
    if fmt ≠ "" && after.startsWith ";base64," then
      let data := String.mk ((after.drop 8).toList.takeWhile (· ≠ '\n'))
      if data ≠ "" then some (fmt, data) else none
    else none
  else none

/-- One iteration of the `_normalize_image_paths` loop.  `n` counts the
`uuid.uuid4()` calls made so far (one per non-canonical image).  Elements
whose processing is skipped or fails keep their original path. -/
def _normalize_one_image_path (env : FsEnv) (n : ℕ) (e : ParsedElement) :
    ParsedElement × ℕ :=
  if e.type ≠ "image" ∨ e.imagePath = "" then (e, n)
  -- Case 1: already a relative `images/...` reference: left as is
  else if ¬ pyIsAbsolute e.imagePath ∧ e.imagePath.startsWith "images/" then (e, n)
  else
    let uniqueId := env.fresh n
    -- Case 2: blob URL: logged and skipped
    if e.imagePath.startsWith "blob:" then (e, n + 1)
    -- Case 3: base64 data URI: decoded and saved (failure leaves the path)
    else if e.imagePath.startsWith "data:image/" then
      match dataUriMatch e.imagePath with
      | some (fmt, data) =>
        if env.b64SaveOk data then
          ({ e with imagePath := "images/img_" ++ uniqueId ++ extFromFormat fmt }, n + 1)
        else (e, n + 1)
      | none => (e, n + 1)
    -- Case 4: absolute path: copied when it exists (failure leaves the path)
    else if pyIsAbsolute e.imagePath then
      if env.fileExists e.imagePath then
        if env.copyOk e.imagePath then
          let ext := if pySuffix e.imagePath ≠ "" then pySuffix e.imagePath else ".png"
          ({ e with imagePath := "images/img_" ++ uniqueId ++ ext }, n + 1)
        else (e, n + 1)
      else (e, n + 1)
    -- Case 5: relative path without the `images/` prefix: prefixed
    else ({ e with imagePath := "images/" ++ pyName e.imagePath }, n + 1)

def _normalize_image_paths_go (env : FsEnv) : ℕ → List ParsedElement → List ParsedElement
  | _, [] => []
  | n, e :: es =>
    let r := _normalize_one_image_path env n e
    r.1 :: _normalize_image_paths_go env r.2 es

/-- `_normalize_image_paths`: the single rewrite pass over the element list
(the Python code mutates `elem.image_path` in place). -/
def _normalize_image_paths (env : FsEnv) (elems : List ParsedElement) : List ParsedElement :=
  _normalize_image_paths_go env 0 elems

/-! ## `_normalize_elements_to_paragraphs` (lecture_builder.py 218-410) -/

abbrev Line := List ParsedElement

/-- `normalize_y`: round the top y to the nearest 5 units (0 for a missing
bbox, matching the `if bbox and len(bbox) >= 4 else 0` guards). -/
def normalize_y (bb : Option (ℚ × ℚ × ℚ × ℚ)) : ℚ :=
  match bb with
  | none => 0
  | some b => (pyRound (b.2.1 / 5) : ℚ) * 5

/-- The `sorted(...)` key `(page_number, normalized_y, x0)`. -/
def elemSortKey (e : ParsedElement) : ℤ × ℚ × ℚ :=
  (e.pageNumber, normalize_y e.bbox,
    match e.bbox with | some b => b.1 | none => 0)

/-- Lexicographic `≤` on a 3-component sort key. -/
def lexLe3 (a b : ℤ × ℚ × ℚ) : Prop :=
  a.1 < b.1 ∨ (a.1 = b.1 ∧ (a.2.1 < b.2.1 ∨ (a.2.1 = b.2.1 ∧ a.2.2 ≤ b.2.2)))

instance (a b : ℤ × ℚ × ℚ) : Decidable (lexLe3 a b) := by
  unfold lexLe3; infer_instance

def elemLe (a b : ParsedElement) : Bool := decide (lexLe3 (elemSortKey a) (elemSortKey b))

/-- The `line_id` of a span: `(page_number, normalized_y)`. -/
def lineKey (e : ParsedElement) : ℤ × ℚ := (e.pageNumber, normalize_y e.bbox)

/-- Group consecutive text spans with equal `line_id` into lines
(the loop at lecture_builder.py 257-279; non-text or empty-text elements
are skipped and do not break a line). -/
def chunkByKey : List ParsedElement → List Line
  | [] => []
  | e :: es =>
    match chunkByKey es with
    | [] => [[e]]
    | [] :: rest => [e] :: [] :: rest   -- unreachable: chunks are never empty
    | (f :: fs) :: rest =>
      if lineKey e = lineKey f then (e :: f :: fs) :: rest
      else [e] :: (f :: fs) :: rest

/-- The vertical-gap statistics pass (lecture_builder.py 284-300): gaps
between consecutive same-page lines using the first span's real bbox,
keeping only `0 < gap < 100`. -/
def verticalGaps (lines : List Line) : List ℚ :=
  (lines.zip lines.tail).filterMap fun pr =>
    if pr.1 = [] ∨ pr.2 = [] then none
    else if (pr.2.headD default).pageNumber ≠ (pr.1.headD default).pageNumber then none
    else
      match (pr.2.headD default).bbox, (pr.1.headD default).bbox with
      | some cb, some pb =>
        let gap := cb.2.1 - pb.2.2.2
        if 0 < gap ∧ gap < 100 then some gap else none
      | _, _ => none

/-- Mean font size of a line (`statistics.mean(line_font_sizes)` with the
`else 12.0` guard). -/
def lineAvgFontSize (line : Line) : ℚ :=
  let fs := line.map (·.fontSize)
  if fs ≠ [] then pyMean fs else 12

/-- `all(s.is_bold for s in line_spans if s.type == "text")`. -/
def lineIsBold (line : Line) : Bool := (line.filter (·.type = "text")).all (·.isBold)

/-- `line_spans[0].bbox if ... else None`. -/
def lineBbox (line : Line) : Option (ℚ × ℚ × ℚ × ℚ) := (line.headD default).bbox

def linePage (line : Line) : ℤ := (line.headD default).pageNumber

/-- `" ".join([s.text for s in line_spans if s.text]).strip()`. -/
def lineText (line : Line) : String :=
  (String.intercalate " " (line.filterMap fun s => if s.text ≠ "" then some s.text else none)).trim

/-- The vertical gap between the previous and the current line, from the
first spans' real bboxes (`0` when either bbox is missing). -/
def lineVGap (prevLine line : Line) : ℚ :=
  match lineBbox line, lineBbox prevLine with
  | some b, some pb => b.2.1 - pb.2.2.2
  | _, _ => 0

/-- `line_text and line_text[0].isupper()`. -/
def lineStartsWithCapital (line : Line) : Bool :=
  lineText line ≠ "" && pyIsUpper ((lineText line).toList.headD 'a')

/-- `prev_line_text.endswith('.') or ... ('!') or ... ('?')`. -/
def lineEndsWithPeriod (line : Line) : Bool :=
  lineText line ≠ "" &&
  ((lineText line).endsWith "." || (lineText line).endsWith "!" ||
   (lineText line).endsWith "?")

/-- The per-line continuation decision (lecture_builder.py 330-388): the
line joins the paragraph under construction iff the basic conditions hold
and no force-break condition holds. -/
def shouldContinuePara (medianGap avgGap : ℚ) (prevLine line : Line) : Bool :=
  let vgap := lineVGap prevLine line
  let fontSizeDiff := |lineAvgFontSize line - lineAvgFontSize prevLine|
  let basicConditionsMet :=
    decide (linePage line = linePage prevLine) && decide (vgap < 15) &&
    decide (fontSizeDiff < 2) && (lineIsBold line = lineIsBold prevLine)
  let significantGap :=
    if vgap > 0 then decide (vgap > max (medianGap * (13/10)) (avgGap * (12/10))) else false
  let heuristicNewParagraph :=
    lineStartsWithCapital line && lineEndsWithPeriod prevLine && decide (vgap > 8)
  let veryLargeGap := decide (vgap > 25)
  basicConditionsMet && !significantGap && !heuristicNewParagraph && !veryLargeGap

/-- The accumulation loop (lecture_builder.py 310-397): `cur` is the
paragraph under construction (non-empty), sealed when the decision fails. -/
def assembleAux (mg ag : ℚ) (cur : List Line) : List Line → List (List Line)
  | [] => [cur]
  | l :: ls =>
    if l = [] then assembleAux mg ag cur ls
    else if shouldContinuePara mg ag (cur.getLastD []) l then
      assembleAux mg ag (cur ++ [l]) ls
    else cur :: assembleAux mg ag [l] ls

def assembleParas (mg ag : ℚ) : List Line → List (List Line)
  | [] => []
  | l :: ls => if l = [] then assembleParas mg ag ls else assembleAux mg ag [l] ls

/-- `_create_paragraph_dict` (lecture_builder.py 413-475). -/
def _create_paragraph_dict (lines : List Line) (numLines : ℕ) : Paragraph :=
  let allSpans := lines.flatten
  if allSpans = [] then
    { type := "text", spans := [], text := "", avgFontSize := 12, isBold := false,
      bbox := (0, 0, 0, 0), pageNumber := 0, isHeader := false, headerLevel := 0,
      numLines := 0, globalIndex := -1 }
  else
    let paragraphText :=
      String.intercalate " " (allSpans.filterMap fun s => if s.text ≠ "" then some s.text else none)
    let fontSizes := (allSpans.filter (·.type = "text")).map (·.fontSize)
    let bboxes : List (ℚ × ℚ × ℚ × ℚ) := allSpans.filterMap (·.bbox)
    { type := "text"
      spans := allSpans
      text := paragraphText
      avgFontSize := if fontSizes ≠ [] then pyMean fontSizes else 12
      isBold := (allSpans.filter (·.type = "text")).all (·.isBold)
      bbox := if bboxes = [] then ((0, 0, 0, 0) : ℚ × ℚ × ℚ × ℚ) else
        (listMinD 0 (bboxes.map (·.1)), listMinD 0 (bboxes.map (·.2.1)),
         listMaxD 0 (bboxes.map (·.2.2.1)), listMaxD 0 (bboxes.map (·.2.2.2)))
      pageNumber := (allSpans.headD default).pageNumber
      isHeader := false
      headerLevel := 0
      numLines := numLines
      globalIndex := -1 }

/-- `for idx, para in enumerate(paragraphs): para['global_index'] = idx`. -/
def setGlobalIndexes : ℕ → List Paragraph → List Paragraph
  | _, [] => []
  | n, p :: ps => { p with globalIndex := (n : ℤ) } :: setGlobalIndexes (n + 1) ps

/-- Lexicographic `≤` on a 2-component sort key. -/
def lexLe2 (a b : ℤ × ℚ) : Prop := a.1 < b.1 ∨ (a.1 = b.1 ∧ a.2 ≤ b.2)

instance (a b : ℤ × ℚ) : Decidable (lexLe2 a b) := by
  unfold lexLe2; infer_instance

/-- Strict lexicographic order on a line key `(page, normalized_y)`
(verification vocabulary, used to reason about the sort). -/
def lineKeyLt (a b : ℤ × ℚ) : Prop := a.1 < b.1 ∨ (a.1 = b.1 ∧ a.2 < b.2)

/-- The final `paragraphs.sort` key `(page_number, bbox[1])`; a paragraph
bbox is always a (truthy) 4-tuple, so the `else 0` guard never fires. -/
def paraSortKey (p : Paragraph) : ℤ × ℚ := (p.pageNumber, p.bbox.2.1)

def paraLe (a b : Paragraph) : Bool := decide (lexLe2 (paraSortKey a) (paraSortKey b))

/-- `_normalize_elements_to_paragraphs` (lecture_builder.py 218-410):
sort spans, group into lines, assemble paragraphs, assign the global
ordinal in pre-sort order, then stably sort by `(page, y0)`.  Returns the
paragraph list and the image elements. -/
def _normalize_elements_to_paragraphs (elems : List ParsedElement) :
    List Paragraph × List ParsedElement :=
  let sortedElems := elems.mergeSort elemLe
  let textSpans := sortedElems.filter fun e => e.type = "text" && e.text ≠ ""
  let lines := chunkByKey textSpans
  let gaps := verticalGaps lines
  let medianGap := if gaps ≠ [] then pyMedian gaps else 15
  let avgGap := if gaps ≠ [] then pyMean gaps else 15
  let groups := assembleParas medianGap avgGap lines
  let paragraphs0 := groups.map fun g => _create_paragraph_dict g g.length
  let images := sortedElems.filter fun e => e.type = "image"
  let indexed := setGlobalIndexes 0 paragraphs0
  (indexed.mergeSort paraLe, images)

/-! ## `_identify_headers_from_paragraphs` (lecture_builder.py 478-564)

The loop mutates `para['is_header']`/`para['header_level']` in place and
collects header records; criterion 3 reads only `type`/`bbox` of the
previous paragraph, which the mutation never touches, so classifying
against the input list is faithful. -/

/-- Criterion 1: large font and a short paragraph (1-2 lines, ≤150 chars). -/
def headerCrit1 (thr : ℚ) (p : Paragraph) : Bool :=
  decide (p.avgFontSize ≥ thr) && decide (p.numLines ≤ 2) && decide (p.text.trim.length ≤ 150)

/-- Criterion 2: all spans bold and a short paragraph. -/
def headerCrit2 (p : Paragraph) : Bool :=
  p.isBold && decide (p.numLines ≤ 2) && decide (p.text.trim.length ≤ 150)

/-- Criterion 3: short capitalized text without a trailing `.`/`,`, font at
least 0.9 of the median, and a vertical gap of more than 20 units from the
previous paragraph (which exists only when `idx > 0`; paragraph bboxes are
always truthy 4-tuples, so the `and prev_para['bbox'] and para['bbox']`
guards always pass). -/
def headerCrit3 (paras : List Paragraph) (median : ℚ) (idx : ℕ) (p : Paragraph) : Bool :=
  let tx := p.text.trim
  decide (tx.length ≤ 100) && decide (tx.length > 3) &&
  pyIsUpper (tx.toList.headD 'a') &&
  !(tx.endsWith ".") && !(tx.endsWith ",") &&
  decide (p.avgFontSize ≥ median * (9/10)) &&
  (if 0 < idx then
    let prev := paras.getD (idx - 1) default
    decide (prev.type = "text") && decide (p.bbox.2.1 - prev.bbox.2.2.2 > 20)
  else false)

/-- The sequential criterion evaluation: first match wins.  Returns the
`(is_header, level)` pair. -/
def classifyHeader (paras : List Paragraph) (thr median : ℚ) (idx : ℕ) (p : Paragraph) :
    Bool × ℕ :=
  if headerCrit1 thr p then
    (true, if p.avgFontSize ≥ thr * (3/2) then 1 else 2)
  else if headerCrit2 p then (true, 1)
  else if headerCrit3 paras median idx p then (true, 1)
  else (false, 0)

/-- Header display text: first line when a newline is embedded, otherwise a
100-char word-boundary truncation when over 100 chars. -/
def headerDisplayText (tx : String) : String :=
  if tx.toList.contains '\n' then (pySplitNewlineHead tx).trim
  else if tx.length > 100 then (pyRsplitSpaceHead (tx.take 100)).trim
  else tx

def _identify_headers_go (paras : List Paragraph) (thr median : ℚ) :
    ℕ → List Paragraph → List Paragraph × List Header
  | _, [] => ([], [])
  | idx, p :: ps =>
    let rest := _identify_headers_go paras thr median (idx + 1) ps
    if p.type ≠ "text" ∨ p.text = "" then (p :: rest.1, rest.2)
    else if p.text.trim = "" then (p :: rest.1, rest.2)
    else
      let c := classifyHeader paras thr median idx p
      if c.1 then
        let p2 := { p with isHeader := true, headerLevel := c.2 }
        (p2 :: rest.1,
         { index := p.globalIndex, level := c.2,
           text := headerDisplayText p.text.trim, paragraph := p2 } :: rest.2)
      else (p :: rest.1, rest.2)

/-- `_identify_headers_from_paragraphs`: returns the updated paragraph list
(the in-place `is_header` mutation) and the header records, whose `index`
is the paragraph's `global_index`. -/
def _identify_headers_from_paragraphs (paras : List Paragraph) (thr median : ℚ) :
    List Paragraph × List Header :=
  _identify_headers_go paras thr median 0 paras

/-! ## Metadata extraction (lecture_builder.py 567-653) -/

def _extract_lecture_title_from_paragraphs (paras : List Paragraph)
    (headers : List Header) : String :=
  match headers.find? (·.level = 1) with
  | some h => h.text
  | none =>
    match headers.head? with
    | some h => h.text
    | none =>
      match paras.find? (fun p =>
          p.type = "text" && p.text ≠ "" && p.text.trim ≠ "" && p.text.trim.length < 200) with
      | some p => p.text.trim
      | none => "Лекция"

def _generate_description_go (headerIdxs : List ℤ) :
    ℕ → List Paragraph → List String → List String
  | _, [], acc => acc
  | i, p :: ps, acc =>
    if p.type ≠ "text" ∨ p.text = "" ∨ (i : ℤ) ∈ headerIdxs then
      _generate_description_go headerIdxs (i + 1) ps acc
    else
      let tx := p.text.trim
      if tx = "" ∨ tx.length < 10 then _generate_description_go headerIdxs (i + 1) ps acc
      else
        let acc2 := acc ++ [tx]
        if acc2.length ≥ 2 ∨ (String.intercalate " " acc2).length > 500 then acc2
        else _generate_description_go headerIdxs (i + 1) ps acc2

/-- `_generate_description_from_paragraphs`: the first one or two non-header
paragraphs of length ≥ 10, truncated with an ellipsis over 500 chars.  (The
skip test compares the enumeration position `i` with the recorded header
global indices.) -/
def _generate_description_from_paragraphs (paras : List Paragraph)
    (headers : List Header) : String :=
  let parts := _generate_description_go (headers.map (·.index)) 0 paras []
  if parts = [] then ""
  else
    let description := String.intercalate " " parts
    if description.length > 500 then description.take 497 ++ "..." else description

def _detect_language_from_paragraphs (paras : List Paragraph) : String :=
  let allText := paras.filterMap fun p =>
    if p.type = "text" && p.text ≠ "" then
      let tx := p.text.trim
      if tx ≠ "" && tx.length > 3 then some tx else none
    else none
  if allText = [] then "ru"
  else
    let combined := String.intercalate " " (allText.take 10)
    let cyrillicCount := (combined.toList.filter fun c =>
      1024 ≤ c.toNat && c.toNat ≤ 1279).length
    let latinCount := (combined.toList.filter fun c =>
      c.isAlpha && c.toNat < 128).length
    if (cyrillicCount : ℚ) > (latinCount : ℚ) * (3/10) then "ru" else "en"

def _extract_keywords_from_paragraphs (paras : List Paragraph)
    (headers : List Header) : List String :=
  (((headers.filter (·.level = 1)).map (·.text)).take 10)

/-! ## Page construction (lecture_builder.py 656-968) -/

/-- The non-header text paragraphs placed on a page: headers are excluded
by the `is_header` flag or by membership of the global ordinal in the
recorded header list. -/
def pageTextParas (paras : List Paragraph) (allHeaders : List Header) : List Paragraph :=
  paras.filter fun p =>
    p.type = "text" && !(p.isHeader || (allHeaders.map (·.index)).contains p.globalIndex)

/-- Page-height estimate: the maximum paragraph bottom, defaulting to the
A4 height 842 when there are no paragraphs or the maximum is not positive. -/
def pageHeightOf (paras : List Paragraph) : ℚ :=
  if paras = [] then 842
  else
    let maxY := listMaxD 0 (paras.map (·.bbox.2.2.2))
    if maxY > 0 then maxY else 842

/-- Images belonging to a page: page number within the [first, last] page
numbers of the page's paragraphs. -/
def pageImagesFor (paras : List Paragraph) (allImages : List ParsedElement) :
    List ParsedElement :=
  allImages.filter fun img =>
    !paras.isEmpty &&
    decide ((paras.headD default).pageNumber ≤ img.pageNumber) &&
    decide (img.pageNumber ≤ (paras.getLastD default).pageNumber)

/-- The image sort key `img.bbox[1] if ... else 0`. -/
def imgY0 (img : ParsedElement) : ℚ :=
  match img.bbox with | some b => b.2.1 | none => 0

def imgLe (a b : ParsedElement) : Bool := decide (imgY0 a ≤ imgY0 b)

/-- Canonical `images/<name>` path enforced when an ImageBlock is built. -/
def normBlockPath (p : String) : String :=
  if ¬ p.startsWith "images/" then "images/" ++ pyName p else p

/-- The Y-order scan (lecture_builder.py 853-888): the first TextBlock whose
source paragraph's bottom edge is at or above the image's top edge.  (In the
source the inner `j` lookahead loop can only set `target_block_idx = i` and
`next_para_found` is never set to True, so the `if not next_para_found`
branch always fires for the first such `i`: the scan reduces to a first
match.) -/
def findTargetBlockIdx (blocks : List ContentBlock) (imgTop : ℚ) : Option ℕ :=
  blocks.findIdx? fun b =>
    match b with
    | .text _ _ _ _ sp => decide (imgTop ≥ sp.bbox.2.2.2)
    | _ => false

def findNearestGo (imageCenterY : ℚ) :
    List ContentBlock → ℕ → Option (ℕ × ℚ) → Option (ℕ × ℚ)
  | [], _, best => best
  | b :: bs, i, best =>
    match b with
    | .text _ _ _ _ sp =>
      let paraCenterY := (sp.bbox.2.1 + sp.bbox.2.2.2) / 2
      let d := |paraCenterY - imageCenterY|
      let best2 := match best with
        | none => some (i, d)
        | some (j, dj) => if d < dj then some (i, d) else some (j, dj)
      findNearestGo imageCenterY bs (i + 1) best2
    | _ => findNearestGo imageCenterY bs (i + 1) best

/-- `_find_nearest_text_block_for_image` (lecture_builder.py 928-968): the
TextBlock whose source-paragraph center is nearest to the image center,
or `None` beyond 300 units (paragraph bboxes are always present). -/
def _find_nearest_text_block_for_image (blocks : List ContentBlock)
    (image : ParsedElement) : Option ℕ :=
  match image.bbox with
  | none => none
  | some bb =>
    match findNearestGo ((bb.2.1 + bb.2.2.2) / 2) blocks 0 none with
    | none => none
    | some (i, d) => if d > 300 then none else some i

/-- One iteration of the image-placement loop
(lecture_builder.py 801-923). -/
def placeImageStep (textParas : List Paragraph) (pageHeight : ℚ)
    (blocks : List ContentBlock) (img : ParsedElement) : List ContentBlock :=
  match img.bbox with
  | none => blocks
  | some bb =>
    if img.imagePath = "" then blocks
    else if img.imagePath.startsWith "blob:" then blocks
    else
      let imgRelativeHeight :=
        if pageHeight > 0 then (bb.2.2.2 - bb.2.1) / pageHeight * 100 else 0
      let isVeryLarge := decide (imgRelativeHeight > 60)
      let imgCenterY := (bb.2.1 + bb.2.2.2) / 2
      let hasNearbyText := textParas.any fun p =>
        decide (|imgCenterY - (p.bbox.2.1 + p.bbox.2.2.2) / 2| < 100)
      if isVeryLarge && !hasNearbyText then blocks
      else
        let imageBlock : ContentBlock :=
          .image (normBlockPath img.imagePath) ""
            (some (bb.2.2.1 - bb.1)) (some (bb.2.2.2 - bb.2.1))
        match findTargetBlockIdx blocks bb.2.1 with
        | some i => blocks.insertIdx (i + 1) imageBlock
        | none =>
          match _find_nearest_text_block_for_image blocks img with
          | some i => blocks.insertIdx (i + 1) imageBlock
          | none => blocks ++ [imageBlock]

/-- Verification vocabulary: whether the placement loop builds an
ImageBlock for `img` (bbox present, non-empty non-blob path, and not an
oversized image without nearby text).  `placeImageStep` leaves the block
list unchanged exactly when this is false. -/
def placesBlock (textParas : List Paragraph) (pageHeight : ℚ)
    (img : ParsedElement) : Bool :=
  match img.bbox with
  | none => false
  | some bb =>
    if img.imagePath = "" then false
    else if img.imagePath.startsWith "blob:" then false
    else
      let imgRelativeHeight :=
        if pageHeight > 0 then (bb.2.2.2 - bb.2.1) / pageHeight * 100 else 0
      let hasNearbyText := textParas.any fun p =>
        decide (|(bb.2.1 + bb.2.2.2) / 2 - (p.bbox.2.1 + p.bbox.2.2.2) / 2| < 100)
      !(decide (imgRelativeHeight > 60) && !hasNearbyText)

/-- `_build_single_page_from_paragraphs` (lecture_builder.py 725-925). -/
def _build_single_page_from_paragraphs (paras : List Paragraph) (title : String)
    (order : ℤ) (allHeaders : List Header) (allImages : List ParsedElement) :
    LecturePage :=
  let textParas := pageTextParas paras allHeaders
  let blocks0 := textParas.map fun p =>
    ContentBlock.text p.text p.avgFontSize p.isBold "left" p
  let pageImages := (pageImagesFor paras allImages).mergeSort imgLe
  let blocks := pageImages.foldl (placeImageStep textParas (pageHeightOf paras)) blocks0
  { id := "", title := title, contentBlocks := blocks, order := order }

def buildPagesGo (paras : List Paragraph) (allHeaders : List Header)
    (images : List ParsedElement) (pageCounter : ℤ) :
    List Header → List LecturePage
  | [] => []
  | h :: hs =>
    let nextParaIndex : ℤ :=
      match hs.head? with
      | some h2 => h2.index
      | none => (paras.length : ℤ)
    let pageParas := pySlice paras h.index nextParaIndex
    if pageParas = [] then buildPagesGo paras allHeaders images pageCounter hs
    else
      _build_single_page_from_paragraphs pageParas (h.text.trim.take 100) pageCounter
          allHeaders images
        :: buildPagesGo paras allHeaders images (pageCounter + 1) hs

/-- `_build_sections_from_paragraphs` (lecture_builder.py 656-722): one
section; a page per level-1 header (all headers when no level-1 header;
one catch-all page when no headers at all). -/
def _build_sections_from_paragraphs (paras : List Paragraph) (headers : List Header)
    (thr : ℚ) (images : List ParsedElement) : List LectureSection :=
  if headers = [] then
    [{ id := "", title := "Содержание", order := 1,
       pages := [_build_single_page_from_paragraphs paras "Страница 1" 1 headers images] }]
  else
    let level1Headers := headers.filter (·.level = 1)
    let level1Headers := if level1Headers = [] then headers else level1Headers
    [{ id := "", title := "Содержание", order := 1,
       pages := buildPagesGo paras headers images 1 level1Headers }]

/-! ## `_build_lecture_from_images_only` (lecture_builder.py 971-1027) -/

/-- The block built for one element of the images-only fallback: empty and
blob paths are skipped, any remaining path is forced under `images/`. -/
def imagesOnlyBlock (e : ParsedElement) : Option ContentBlock :=
  if e.type ≠ "image" then none
  else if e.imagePath = "" then none
  else if e.imagePath.startsWith "blob:" then none
  else
    let p := e.imagePath
    if p = "" ∨ ¬ p.startsWith "images/" then
      if p ≠ "" then some (.image ("images/" ++ pyName p) "" none none)
      else none
    else some (.image p "" none none)

/-- An image fragment with a resolvable path: non-empty and not a
browser-only blob reference (these are the fragments the images-only
builder turns into blocks). -/
def resolvableImage (e : ParsedElement) : Bool :=
  e.type = "image" && e.imagePath ≠ "" && !(e.imagePath.startsWith "blob:")

/-- The single page of the images-only fallback lecture. -/
def imagesOnlyPage (elems : List ParsedElement) : LecturePage :=
  { id := "", title := "Страница 1", order := 1,
    contentBlocks := elems.filterMap imagesOnlyBlock }

def _build_lecture_from_images_only (elems : List ParsedElement) : Lecture :=
  { title := "Лекция", description := "", language := "ru",
    sections := [{ id := "", title := "Содержание", order := 1,
                   pages := [imagesOnlyPage elems] }],
    metadataKeywords := [] }

/-! ## `build_lecture` (lecture_builder.py 32-99) -/

def build_lecture (env : FsEnv) (elems : List ParsedElement) : Except String Lecture :=
  if elems = [] then .error "Список элементов пуст"
  else
    let elems2 := _normalize_image_paths env elems
    let pr := _normalize_elements_to_paragraphs elems2
    let textParagraphs := pr.1.filter (·.type = "text")
    if textParagraphs = [] then .ok (_build_lecture_from_images_only elems2)
    else
      let fontSizes := textParagraphs.map (·.avgFontSize)
      let medianFontSize := if fontSizes ≠ [] then pyMedian fontSizes else 12
      let avgFontSize := if fontSizes ≠ [] then pyMean fontSizes else 12
      let stdFontSize := if fontSizes.length > 1 then env.stdev fontSizes else 0
      let headerThreshold := max (medianFontSize * (13/10)) (avgFontSize + (3/2) * stdFontSize)
      let ih := _identify_headers_from_paragraphs pr.1 headerThreshold medianFontSize
      .ok { title := _extract_lecture_title_from_paragraphs ih.1 ih.2
            description := _generate_description_from_paragraphs ih.1 ih.2
            language := _detect_language_from_paragraphs ih.1
            sections := _build_sections_from_paragraphs ih.1 ih.2 headerThreshold pr.2
            metadataKeywords := _extract_keywords_from_paragraphs ih.1 ih.2 }

/-! ## Package serializer (`backend/scorm_builder.py`) -/

/-- The `minNormalizedMeasure` text written by `_apply_sequencing_config`
(scorm_builder.py 995-1014): the sequencing element is emitted only when
the configured `completionThreshold` is present, truthy (non-zero) and
positive; its value is `threshold / 100.0` with no clamping. -/
def _apply_sequencing_config (completionThreshold : Option ℚ) : Option ℚ :=
  match completionThreshold with
  | none => none
  | some t => if t = 0 then none else if t > 0 then some (t / 100) else none

/-- Which phases inside the `try` block of `build_from_lecture` succeed;
each `false` models an exception raised in that phase. -/
structure BuildOutcomes where
  copyImagesOk : Bool
  renderPagesOk : Bool
  writeApiOk : Bool
  writeManifestOk : Bool
  zipOk : Bool

/-- The filesystem footprint tracked for the serializer: the staging
directory `<output_dir>/<title>_scorm_package` and the final archive. -/
structure FsState where
  stagingExists : Bool
  zipExists : Bool
deriving DecidableEq, Repr

/-- The phases of the `try` block in order (image copying, page rendering,
API-wrapper write, manifest write, archiving); the first failing phase
raises. -/
def buildPhases (title : String) (o : BuildOutcomes) : Except String String :=
  if !o.copyImagesOk then .error "image copy failed"
  else if !o.renderPagesOk then .error "page render failed"
  else if !o.writeApiOk then .error "api write failed"
  else if !o.writeManifestOk then .error "manifest write failed"
  else if !o.zipOk then .error "zip failed"
  else .ok (title ++ "_SCORM_2004.zip")

/-- Control flow of `SCORMBuilder.build_from_lecture`
(scorm_builder.py 77-207): the staging directory is created fresh before
the `try` block; the `finally` clause removes it (when it exists) on every
exit path, normal return or propagated exception. -/
def build_from_lecture (title : String) (o : BuildOutcomes) :
    Except String String × FsState :=
  let s0 : FsState := { stagingExists := true, zipExists := false }
  let r := buildPhases title o
  let s1 : FsState :=
    { s0 with zipExists := match r with | .ok _ => true | .error _ => false }
  let s2 : FsState :=
    if s1.stagingExists then { s1 with stagingExists := false } else s1
  (r, s2)

/-! ## Concrete fixtures used by witnesses and counterexamples -/

def elemHelloPeriod : ParsedElement :=
  { type := "text", text := "Hello.", imagePath := "", fontSize := 12, isBold := false,
    bbox := some (0, 0, 50, 10), pageNumber := 1, order := 0 }

/-- A span 14.9 units below `elemHelloPeriod`, starting with a capital. -/
def elemWorldAfterGap : ParsedElement :=
  { type := "text", text := "World", imagePath := "", fontSize := 12, isBold := false,
    bbox := some (0, 249/10, 50, 349/10), pageNumber := 1, order := 1 }

/-- A span 14.9 units below `elemHelloPeriod`, starting with a lowercase letter. -/
def elemLowerAfterGap : ParsedElement :=
  { type := "text", text := "world", imagePath := "", fontSize := 12, isBold := false,
    bbox := some (0, 249/10, 50, 349/10), pageNumber := 1, order := 1 }

/-- A span 25.1 units below `elemHelloPeriod`. -/
def elemWorldFarGap : ParsedElement :=
  { type := "text", text := "world", imagePath := "", fontSize := 12, isBold := false,
    bbox := some (0, 351/10, 50, 45), pageNumber := 1, order := 1 }

def paraIntro : Paragraph :=
  { type := "text", spans := [], text := "intro text here.", avgFontSize := 12,
    isBold := false, bbox := (0, 0, 10, 10), pageNumber := 1, isHeader := false,
    headerLevel := 0, numLines := 1, globalIndex := 0 }

def paraShortTitle : Paragraph :=
  { type := "text", spans := [], text := "Hello World", avgFontSize := 12,
    isBold := false, bbox := (0, 40, 10, 50), pageNumber := 1, isHeader := false,
    headerLevel := 0, numLines := 1, globalIndex := 1 }

/-- A body paragraph with bbox `(0, 0, 100, 100)`: page-height estimate
100, vertical center 50. -/
def paraText100 : Paragraph :=
  { type := "text", spans := [], text := "Some body text here.", avgFontSize := 12,
    isBold := false, bbox := (0, 0, 100, 100), pageNumber := 1, isHeader := false,
    headerLevel := 0, numLines := 1, globalIndex := 0 }

/-- An image of height 70 (70% of the 100-unit page height) whose center
550 is 500 units from the nearest text center. -/
def imgTall : ParsedElement :=
  { type := "image", text := "", imagePath := "images/tall.png", fontSize := 12,
    isBold := false, bbox := some (0, 515, 100, 585), pageNumber := 1, order := 1 }

def imgCanonical : ParsedElement :=
  { type := "image", text := "", imagePath := "images/pic.png", fontSize := 12,
    isBold := false, bbox := some (0, 0, 100, 100), pageNumber := 1, order := 0 }

def trivialEnv : FsEnv :=
  { fresh := fun _ => "u", fileExists := fun _ => false, copyOk := fun _ => false,
    b64SaveOk := fun _ => false, stdev := fun _ => 0 }

def emptySection : LectureSection := { id := "", title := "", pages := [], order := 0 }

/-! # Theorems -/

/-! ## C6: the completion threshold is not clamped -/

/-- C6 counterexample: with a caller-supplied threshold of 150 the
serializer writes `minNormalizedMeasure = 1.5`, which does not lie in
[0.0, 1.0]; the claimed clamping does not exist. -/
theorem c6_counterexample_threshold150 :
    _apply_sequencing_config (some 150) = some (3/2) ∧ ¬ ((3/2 : ℚ) ≤ 1) := by
  constructor
  · norm_num [_apply_sequencing_config]
  · norm_num

/-- C6 (amended): the written `minNormalizedMeasure` equals exactly
`threshold / 100` whenever the threshold is positive — no clamping is
performed, so out-of-range thresholds produce out-of-range measures —
and nothing is written for a non-positive threshold. -/
theorem c6_min_normalized_measure_unclamped (t : ℚ) :
    (0 < t → _apply_sequencing_config (some t) = some (t / 100)) ∧
    (t ≤ 0 → _apply_sequencing_config (some t) = none) := by
  constructor
  · intro h
    simp only [_apply_sequencing_config]
    rw [if_neg (ne_of_gt h), if_pos h]
  · intro h
    by_cases h0 : t = 0
    · simp [_apply_sequencing_config, h0]
    · simp only [_apply_sequencing_config]
      rw [if_neg h0, if_neg (not_lt.mpr h)]

theorem c6_min_normalized_measure_unclamped_witness :
    _apply_sequencing_config (some 80) = some (80 / 100) :=
  (c6_min_normalized_measure_unclamped 80).1 (by norm_num)

/-! ## C7: staging-directory cleanup on every exit path -/

/-- C7: on every exit path of `build_from_lecture` — normal return of the
archive path as well as propagation of an exception from any phase of the
`try` block — the staging directory no longer exists afterwards. -/
theorem c7_staging_dir_removed (title : String) (o : BuildOutcomes) :
    ((build_from_lecture title o).2).stagingExists = false := by
  rfl

/-! ## C9: idempotence of image-path normalization on canonical paths -/

theorem normalize_one_canonical (env : FsEnv) (n : ℕ) (e : ParsedElement)
    (himg : e.type = "image") (habs : pyIsAbsolute e.imagePath = false)
    (hpre : e.imagePath.startsWith "images/" = true) :
    _normalize_one_image_path env n e = (e, n) := by
  have hne : e.imagePath ≠ "" := by
    intro h
    rw [h] at hpre
    exact absurd hpre (by decide)
  simp [_normalize_one_image_path, himg, habs, hpre, hne]

theorem go_cons (env : FsEnv) (n : ℕ) (a : ParsedElement) (as : List ParsedElement) :
    _normalize_image_paths_go env n (a :: as) =
      (_normalize_one_image_path env n a).1 ::
        _normalize_image_paths_go env (_normalize_one_image_path env n a).2 as := by
  simp only [_normalize_image_paths_go]

theorem normalize_go_canonical (env : FsEnv) (elems : List ParsedElement) :
    ∀ (n i : ℕ) (e : ParsedElement), elems[i]? = some e → e.type = "image" →
      pyIsAbsolute e.imagePath = false → e.imagePath.startsWith "images/" = true →
      (_normalize_image_paths_go env n elems)[i]? = some e := by
  induction elems with
  | nil => intro n i e hi _ _ _; simp at hi
  | cons a as ih =>
    intro n i e hi himg habs hpre
    rw [go_cons]
    cases i with
    | zero =>
      rw [List.getElem?_cons_zero] at hi ⊢
      have ha : a = e := Option.some.inj hi
      subst ha
      rw [normalize_one_canonical env n a himg habs hpre]
    | succ j =>
      rw [List.getElem?_cons_succ] at hi
      rw [List.getElem?_cons_succ]
      exact ih _ j e hi himg habs hpre

/-- C9: for an image element whose path is already relative and starts with
`images/`, one or two runs of `_normalize_image_paths` leave the element —
in particular its path — unchanged, character for character. -/
theorem c9_image_path_normalization_idempotent (env : FsEnv)
    (elems : List ParsedElement) (i : ℕ) (e : ParsedElement)
    (hi : elems[i]? = some e) (himg : e.type = "image")
    (habs : pyIsAbsolute e.imagePath = false)
    (hpre : e.imagePath.startsWith "images/" = true) :
    (_normalize_image_paths env elems)[i]? = some e ∧
    (_normalize_image_paths env (_normalize_image_paths env elems))[i]? = some e := by
  have h1 := normalize_go_canonical env elems 0 i e hi himg habs hpre
  exact ⟨h1, normalize_go_canonical env _ 0 i e h1 himg habs hpre⟩

theorem c9_image_path_normalization_idempotent_witness :
    (_normalize_image_paths trivialEnv [imgCanonical])[0]? = some imgCanonical ∧
    (_normalize_image_paths trivialEnv
        (_normalize_image_paths trivialEnv [imgCanonical]))[0]? = some imgCanonical :=
  c9_image_path_normalization_idempotent trivialEnv [imgCanonical] 0 imgCanonical
    (by with_unfolding_all decide) (by with_unfolding_all decide)
    (by with_unfolding_all decide) (by with_unfolding_all decide)

/-! ## C10: the gap-based header criterion -/

/-- C10: criterion 3 never fires for the first paragraph (it requires a
predecessor), and whenever it is the criterion that classifies a paragraph
as a header the assigned level is 1. -/
theorem c10_gap_criterion_properties (paras : List Paragraph) (thr median : ℚ)
    (idx : ℕ) (p : Paragraph) :
    headerCrit3 paras median 0 p = false ∧
    (headerCrit3 paras median idx p = true → 0 < idx) ∧
    (headerCrit1 thr p = false → headerCrit2 p = false →
      (classifyHeader paras thr median idx p).1 = true →
      (classifyHeader paras thr median idx p).2 = 1) := by
  refine ⟨?_, ?_, ?_⟩
  · simp [headerCrit3]
  · intro h
    rcases Nat.eq_zero_or_pos idx with rfl | hpos
    · simp [headerCrit3] at h
    · exact hpos
  · intro h1 h2 htrue
    by_cases h3 : headerCrit3 paras median idx p = true
    · simp [classifyHeader, h1, h2, h3]
    · simp [classifyHeader, h1, h2, h3] at htrue

theorem c10_gap_criterion_properties_witness :
    (classifyHeader [paraIntro, paraShortTitle] 100 12 1 paraShortTitle).2 = 1 :=
  (c10_gap_criterion_properties [paraIntro, paraShortTitle] 100 12 1 paraShortTitle).2.2
    (by with_unfolding_all decide) (by with_unfolding_all decide)
    (by with_unfolding_all decide)

/-! ## C4: the gap-threshold boundary -/

/-- C4 counterexample: two same-page lines with vertical gap exactly 14.9,
identical mean font size and identical bold state are nevertheless split
into two paragraphs, because the sentence-boundary heuristic fires (the
second line starts with a capital, the first ends with a period, and the
gap exceeds 8). -/
theorem c4_counterexample_gap149_splits :
    lineVGap [elemHelloPeriod] [elemWorldAfterGap] = 149/10 ∧
    elemHelloPeriod.fontSize = elemWorldAfterGap.fontSize ∧
    elemHelloPeriod.isBold = elemWorldAfterGap.isBold ∧
    elemHelloPeriod.pageNumber = elemWorldAfterGap.pageNumber ∧
    (_normalize_elements_to_paragraphs [elemHelloPeriod, elemWorldAfterGap]).1.length = 2 := by
  refine ⟨by with_unfolding_all decide, by with_unfolding_all decide,
    by with_unfolding_all decide, by with_unfolding_all decide,
    by with_unfolding_all decide⟩

/-- C4 (amended): a vertical gap of exactly 25.1 units always seals the
paragraph under construction; a gap of exactly 14.9 units with matching
mean font size (difference < 2.0) and identical bold state on the same page
merges the two lines provided, additionally, the sentence-boundary
heuristic does not fire and 14.9 does not exceed the significant-gap
threshold `max(median_gap * 1.3, mean_gap * 1.2)`. -/
theorem c4_gap_threshold_boundary (mg ag : ℚ) (prevLine line : Line) :
    (lineVGap prevLine line = 251/10 →
      shouldContinuePara mg ag prevLine line = false) ∧
    (lineVGap prevLine line = 149/10 →
      linePage line = linePage prevLine →
      |lineAvgFontSize line - lineAvgFontSize prevLine| < 2 →
      lineIsBold line = lineIsBold prevLine →
      ¬(lineStartsWithCapital line = true ∧ lineEndsWithPeriod prevLine = true) →
      (149/10 : ℚ) ≤ max (mg * (13/10)) (ag * (12/10)) →
      shouldContinuePara mg ag prevLine line = true) := by
  constructor
  · intro hg
    simp only [shouldContinuePara, hg]
    have h25 : ((251:ℚ)/10 > 25) := by norm_num
    simp [h25]
  · intro hg hpage hfont hbold hheur hsig
    simp only [shouldContinuePara, hg, hpage, hfont, hbold]
    have hlt : ((149:ℚ)/10 < 15) := by norm_num
    have hpos : ((149:ℚ)/10 > 0) := by norm_num
    have hgt8 : ((149:ℚ)/10 > 8) := by norm_num
    have hn25 : ¬ ((149:ℚ)/10 > 25) := by norm_num
    have hnsig : ¬ ((149:ℚ)/10 > max (mg * (13/10)) (ag * (12/10))) := not_lt.mpr hsig
    have hheur2 : (lineStartsWithCapital line && lineEndsWithPeriod prevLine) = false := by
      cases hc : lineStartsWithCapital line with
      | false => simp
      | true =>
        cases he : lineEndsWithPeriod prevLine with
        | false => simp
        | true => exact absurd ⟨hc, he⟩ hheur
    simp [hlt, hpos, hgt8, hn25, hnsig, hheur2, hfont]

theorem c4_gap_threshold_boundary_witness :
    shouldContinuePara (149/10) (149/10) [elemHelloPeriod] [elemWorldFarGap] = false ∧
    shouldContinuePara (149/10) (149/10) [elemHelloPeriod] [elemLowerAfterGap] = true :=
  ⟨(c4_gap_threshold_boundary (149/10) (149/10) [elemHelloPeriod] [elemWorldFarGap]).1
      (by with_unfolding_all decide),
   (c4_gap_threshold_boundary (149/10) (149/10) [elemHelloPeriod] [elemLowerAfterGap]).2
      (by with_unfolding_all decide) (by with_unfolding_all decide)
      (by with_unfolding_all decide) (by with_unfolding_all decide)
      (by with_unfolding_all decide) (by norm_num)⟩

/-! ## C8: graceful degradation to an images-only lecture -/

theorem normalize_one_preserves_type_text (env : FsEnv) (n : ℕ) (e : ParsedElement) :
    (_normalize_one_image_path env n e).1.type = e.type ∧
    (_normalize_one_image_path env n e).1.text = e.text := by
  unfold _normalize_one_image_path
  repeat' split
  all_goals simp

theorem normalize_go_type_text (env : FsEnv) :
    ∀ (n : ℕ) (elems : List ParsedElement) (x : ParsedElement),
      x ∈ _normalize_image_paths_go env n elems →
      ∃ e ∈ elems, x.type = e.type ∧ x.text = e.text := by
  intro n elems
  induction elems generalizing n with
  | nil => intro x hx; simp [_normalize_image_paths_go] at hx
  | cons a as ih =>
    intro x hx
    rw [go_cons] at hx
    rcases List.mem_cons.mp hx with h | h
    · subst h
      exact ⟨a, List.mem_cons_self a as, normalize_one_preserves_type_text env n a⟩
    · obtain ⟨e, he, hte⟩ := ih _ x h
      exact ⟨e, List.mem_cons_of_mem a he, hte⟩

theorem no_text_paragraphs_of_no_text (elems : List ParsedElement)
    (h : ∀ e ∈ elems, e.type = "text" → e.text = "") :
    (_normalize_elements_to_paragraphs elems).1 = [] := by
  have hfil : (elems.mergeSort elemLe).filter
      (fun e => e.type = "text" && e.text ≠ "") = [] := by
    rw [List.filter_eq_nil_iff]
    intro e he
    have hmem : e ∈ elems := (List.mem_mergeSort).mp he
    simp only [Bool.and_eq_true, decide_eq_true_eq, ne_eq, not_and]
    intro ht
    simpa using h e hmem ht
  simp only [_normalize_elements_to_paragraphs, hfil]
  simp [chunkByKey, verticalGaps, assembleParas, setGlobalIndexes, List.mergeSort_nil]

theorem imagesOnlyBlock_eq (e : ParsedElement) :
    imagesOnlyBlock e =
      if resolvableImage e then
        some (ContentBlock.image
          (if e.imagePath.startsWith "images/" then e.imagePath
           else "images/" ++ pyName e.imagePath) "" none none)
      else none := by
  unfold imagesOnlyBlock resolvableImage
  by_cases h1 : e.type = "image" <;> simp [h1]
  by_cases h2 : e.imagePath = "" <;> simp [h2]
  by_cases h3 : e.imagePath.startsWith "blob:" <;> simp [h3]
  by_cases h4 : e.imagePath.startsWith "images/" <;> simp [h4, h2]

theorem imagesOnlyBlock_shape (e : ParsedElement) (b : ContentBlock)
    (hb : imagesOnlyBlock e = some b) : ∃ c, b = ContentBlock.image c "" none none := by
  rw [imagesOnlyBlock_eq] at hb
  by_cases hr : resolvableImage e = true
  · rw [if_pos hr] at hb
    exact ⟨_, (Option.some.inj hb).symm⟩
  · rw [if_neg hr] at hb
    exact absurd hb (by simp)

theorem imagesOnlyBlocks_length (elems : List ParsedElement) :
    (elems.filterMap imagesOnlyBlock).length = (elems.filter resolvableImage).length := by
  induction elems with
  | nil => rfl
  | cons a as ih =>
    rw [List.filterMap_cons, List.filter_cons, imagesOnlyBlock_eq]
    cases hr : resolvableImage a <;> simp [hr, ih]

/-- C8: a non-empty fragment stream with no text degrades to the fixed
images-only lecture: placeholder title, empty description, one section,
one page, and exactly one Image ContentBlock per resolvable image
fragment. -/
theorem c8_images_only_lecture (env : FsEnv) (elems : List ParsedElement)
    (hne : elems ≠ [])
    (hnotext : ∀ e ∈ elems, e.type = "text" → e.text = "") :
    build_lecture env elems =
      Except.ok (_build_lecture_from_images_only (_normalize_image_paths env elems)) ∧
    (_build_lecture_from_images_only (_normalize_image_paths env elems)).title = "Лекция" ∧
    (_build_lecture_from_images_only (_normalize_image_paths env elems)).description = "" ∧
    (_build_lecture_from_images_only (_normalize_image_paths env elems)).sections.length = 1 ∧
    ((_build_lecture_from_images_only (_normalize_image_paths env elems)).sections.headD
        emptySection).pages.length = 1 ∧
    (imagesOnlyPage (_normalize_image_paths env elems)).contentBlocks.length =
      ((_normalize_image_paths env elems).filter resolvableImage).length ∧
    ∀ b ∈ (imagesOnlyPage (_normalize_image_paths env elems)).contentBlocks,
      ∃ c, b = ContentBlock.image c "" none none := by
  have hnotext2 : ∀ e ∈ _normalize_image_paths env elems, e.type = "text" → e.text = "" := by
    intro x hx ht
    obtain ⟨e, he, hty, htx⟩ := normalize_go_type_text env 0 elems x hx
    rw [htx]
    exact hnotext e he (by rw [← hty]; exact ht)
  have hparas := no_text_paragraphs_of_no_text (_normalize_image_paths env elems) hnotext2
  refine ⟨?_, rfl, rfl, rfl, rfl, imagesOnlyBlocks_length _, ?_⟩
  · simp only [build_lecture, if_neg hne, hparas]
    rfl
  · intro b hb
    simp only [imagesOnlyPage, List.mem_filterMap] at hb
    obtain ⟨e, _, hbe⟩ := hb
    exact imagesOnlyBlock_shape e b hbe

theorem c8_images_only_lecture_witness :
    build_lecture trivialEnv [imgCanonical] =
      Except.ok (_build_lecture_from_images_only
        (_normalize_image_paths trivialEnv [imgCanonical])) ∧
    (_build_lecture_from_images_only
        (_normalize_image_paths trivialEnv [imgCanonical])).title = "Лекция" ∧
    (_build_lecture_from_images_only
        (_normalize_image_paths trivialEnv [imgCanonical])).description = "" ∧
    (_build_lecture_from_images_only
        (_normalize_image_paths trivialEnv [imgCanonical])).sections.length = 1 ∧
    ((_build_lecture_from_images_only
        (_normalize_image_paths trivialEnv [imgCanonical])).sections.headD
        emptySection).pages.length = 1 ∧
    (imagesOnlyPage (_normalize_image_paths trivialEnv [imgCanonical])).contentBlocks.length =
      ((_normalize_image_paths trivialEnv [imgCanonical]).filter resolvableImage).length ∧
    ∀ b ∈ (imagesOnlyPage (_normalize_image_paths trivialEnv [imgCanonical])).contentBlocks,
      ∃ c, b = ContentBlock.image c "" none none :=
  c8_images_only_lecture trivialEnv [imgCanonical] (by decide)
    (by with_unfolding_all decide)

/-! ## C1: global ordinals are assigned in final position order -/
theorem pyRound_lower (q : ℚ) : ⌊q⌋ ≤ pyRound q := by
  simp only [pyRound]
  split_ifs <;> omega

theorem pyRound_upper (q : ℚ) : pyRound q ≤ ⌊q⌋ + 1 := by
  simp only [pyRound]
  split_ifs <;> omega

theorem pyRound_mono {a b : ℚ} (h : a ≤ b) : pyRound a ≤ pyRound b := by
  have hf : ⌊a⌋ ≤ ⌊b⌋ := Int.floor_le_floor h
  rcases eq_or_lt_of_le hf with heq | hlt
  · have hr : a - (⌊a⌋ : ℚ) ≤ b - (⌊b⌋ : ℚ) := by
      rw [← heq]
      linarith
    simp only [pyRound]
    rw [← heq]
    split_ifs <;> first | omega | linarith
  · calc pyRound a ≤ ⌊a⌋ + 1 := pyRound_upper a
      _ ≤ ⌊b⌋ := by omega
      _ ≤ pyRound b := pyRound_lower b

theorem lt_of_pyRound_lt {a b : ℚ} (h : pyRound a < pyRound b) : a < b := by
  by_contra hc
  push_neg at hc
  exact absurd (pyRound_mono hc) (by omega)

theorem pyRound_nonpos {q : ℚ} (h : q ≤ 1/2) : pyRound q ≤ 0 := by
  have h0 : ⌊q⌋ ≤ 0 := by
    have h1 : ⌊q⌋ ≤ ⌊(1/2 : ℚ)⌋ := Int.floor_le_floor h
    have h2 : ⌊(1/2 : ℚ)⌋ = 0 := by norm_num
    omega
  rcases eq_or_lt_of_le h0 with heq | hlt
  · unfold pyRound
    rw [heq]
    have hq0 : (0 : ℚ) ≤ q := by
      have := Int.floor_le q
      rw [heq] at this
      exact_mod_cast this
    simp only [pyRound, heq]
    split_ifs <;> first | omega | (exfalso; push_cast at *; linarith)
  · have := pyRound_upper q
    omega

theorem pyRound_nonneg {q : ℚ} (h : -(1/2) ≤ q) : 0 ≤ pyRound q := by
  have h0 : -1 ≤ ⌊q⌋ := by
    have h1 : ⌊(-(1/2) : ℚ)⌋ ≤ ⌊q⌋ := Int.floor_le_floor h
    have h2 : ⌊(-(1/2) : ℚ)⌋ = -1 := by norm_num
    omega
  rcases eq_or_lt_of_le h0 with heq | hlt
  · unfold pyRound
    rw [← heq]
    have hlb : (-1 : ℚ) ≤ q := by linarith
    have hub : q < 0 := by
      have := Int.lt_floor_add_one q
      rw [← heq] at this
      push_cast at this
      linarith
    simp only [pyRound, ← heq]
    split_ifs <;> first | omega | (exfalso; push_cast at *; linarith)
  · have := pyRound_lower q
    omega

theorem half_lt_of_pyRound_pos {q : ℚ} (h : 1 ≤ pyRound q) : 1/2 < q := by
  by_contra hc
  push_neg at hc
  exact absurd (pyRound_nonpos hc) (by omega)

theorem lt_neg_half_of_pyRound_neg {q : ℚ} (h : pyRound q ≤ -1) : q < -(1/2) := by
  by_contra hc
  push_neg at hc
  exact absurd (pyRound_nonneg hc) (by omega)

theorem lineKeyLt_trans {a b c : ℤ × ℚ} (h1 : lineKeyLt a b) (h2 : lineKeyLt b c) :
    lineKeyLt a c := by
  rcases h1 with h1 | ⟨e1, h1⟩ <;> rcases h2 with h2 | ⟨e2, h2⟩
  · exact Or.inl (lt_trans h1 h2)
  · exact Or.inl (e2 ▸ h1)
  · exact Or.inl (e1 ▸ h2)
  · exact Or.inr ⟨e1.trans e2, lt_trans h1 h2⟩

theorem lexLe2_lineKeyLt_trans {a b c : ℤ × ℚ} (h1 : lexLe2 a b) (h2 : lineKeyLt b c) :
    lineKeyLt a c := by
  rcases h1 with h1 | ⟨e1, h1⟩ <;> rcases h2 with h2 | ⟨e2, h2⟩
  · exact Or.inl (lt_trans h1 h2)
  · exact Or.inl (e2 ▸ h1)
  · exact Or.inl (e1 ▸ h2)
  · exact Or.inr ⟨e1.trans e2, lt_of_le_of_lt h1 h2⟩

theorem lexLe3_trans {a b c : ℤ × ℚ × ℚ} (h1 : lexLe3 a b) (h2 : lexLe3 b c) :
    lexLe3 a c := by
  rcases h1 with h1 | ⟨e1, h1 | ⟨f1, h1⟩⟩ <;> rcases h2 with h2 | ⟨e2, h2 | ⟨f2, h2⟩⟩
  · exact Or.inl (lt_trans h1 h2)
  · exact Or.inl (e2 ▸ h1)
  · exact Or.inl (e2 ▸ h1)
  · exact Or.inl (e1 ▸ h2)
  · exact Or.inr ⟨e1.trans e2, Or.inl (lt_trans h1 h2)⟩
  · exact Or.inr ⟨e1.trans e2, Or.inl (f2 ▸ h1)⟩
  · exact Or.inl (e1 ▸ h2)
  · exact Or.inr ⟨e1.trans e2, Or.inl (f1 ▸ h2)⟩
  · exact Or.inr ⟨e1.trans e2, Or.inr ⟨f1.trans f2, le_trans h1 h2⟩⟩

theorem lexLe3_total (a b : ℤ × ℚ × ℚ) : lexLe3 a b ∨ lexLe3 b a := by
  rcases lt_trichotomy a.1 b.1 with h | h | h
  · exact Or.inl (Or.inl h)
  · rcases lt_trichotomy a.2.1 b.2.1 with h2 | h2 | h2
    · exact Or.inl (Or.inr ⟨h, Or.inl h2⟩)
    · rcases le_total a.2.2 b.2.2 with h3 | h3
      · exact Or.inl (Or.inr ⟨h, Or.inr ⟨h2, h3⟩⟩)
      · exact Or.inr (Or.inr ⟨h.symm, Or.inr ⟨h2.symm, h3⟩⟩)
    · exact Or.inr (Or.inr ⟨h.symm, Or.inl h2⟩)
  · exact Or.inr (Or.inl h)

theorem elemLe_trans (a b c : ParsedElement) (h1 : elemLe a b = true)
    (h2 : elemLe b c = true) : elemLe a c = true := by
  simp only [elemLe, decide_eq_true_eq] at *
  exact lexLe3_trans h1 h2

theorem elemLe_total (a b : ParsedElement) : (elemLe a b || elemLe b a) = true := by
  simp only [elemLe, Bool.or_eq_true, decide_eq_true_eq]
  exact lexLe3_total _ _

theorem elemLe_lineKey {a b : ParsedElement} (h : elemLe a b = true) :
    lexLe2 (lineKey a) (lineKey b) := by
  simp only [elemLe, decide_eq_true_eq] at h
  rcases h with h | ⟨e, h | ⟨f, _⟩⟩
  · exact Or.inl h
  · exact Or.inr ⟨e, le_of_lt h⟩
  · exact Or.inr ⟨e, le_of_eq f⟩

theorem normY_lt_y0 {b c : ℚ × ℚ × ℚ × ℚ}
    (h : normalize_y (some b) < normalize_y (some c)) : b.2.1 < c.2.1 := by
  simp only [normalize_y] at h
  have hr : pyRound (b.2.1 / 5) < pyRound (c.2.1 / 5) := by
    by_contra hc
    push_neg at hc
    have : ((pyRound (c.2.1 / 5) : ℚ)) ≤ ((pyRound (b.2.1 / 5) : ℚ)) := by exact_mod_cast hc
    linarith
  have := lt_of_pyRound_lt hr
  linarith

theorem normY_pos_y0 {c : ℚ × ℚ × ℚ × ℚ} (h : 0 < normalize_y (some c)) :
    5/2 < c.2.1 := by
  simp only [normalize_y] at h
  have hr : 1 ≤ pyRound (c.2.1 / 5) := by
    by_contra hc
    push_neg at hc
    have : ((pyRound (c.2.1 / 5) : ℚ)) ≤ 0 := by exact_mod_cast Int.lt_add_one_iff.mp hc
    linarith
  have := half_lt_of_pyRound_pos hr
  linarith

theorem normY_neg_y0 {b : ℚ × ℚ × ℚ × ℚ} (h : normalize_y (some b) < 0) :
    b.2.1 < -(5/2) := by
  simp only [normalize_y] at h
  have hr : pyRound (b.2.1 / 5) ≤ -1 := by
    by_contra hc
    push_neg at hc
    have : (0 : ℚ) ≤ ((pyRound (b.2.1 / 5) : ℚ)) := by exact_mod_cast hc
    linarith
  have := lt_neg_half_of_pyRound_neg hr
  linarith

theorem lexLe2_ne_lt {a b : ℤ × ℚ} (h : lexLe2 a b) (hne : a ≠ b) : lineKeyLt a b := by
  rcases h with h | ⟨e, h⟩
  · exact Or.inl h
  · rcases lt_or_eq_of_le h with h2 | h2
    · exact Or.inr ⟨e, h2⟩
    · exact absurd (Prod.ext e h2) hne

theorem chunkByKey_cons (e : ParsedElement) (es : List ParsedElement) :
    chunkByKey (e :: es) =
      match chunkByKey es with
      | [] => [[e]]
      | [] :: rest => [e] :: [] :: rest
      | (f :: fs) :: rest =>
        if lineKey e = lineKey f then (e :: f :: fs) :: rest
        else [e] :: (f :: fs) :: rest := by
  simp only [chunkByKey]

theorem chunkByKey_ne_nil : ∀ l : List ParsedElement, ∀ c ∈ chunkByKey l, c ≠ [] := by
  intro l
  induction l with
  | nil => intro c hc; simp [chunkByKey] at hc
  | cons e es ih =>
    intro c hc
    rw [chunkByKey_cons] at hc
    cases h : chunkByKey es with
    | nil =>
      rw [h] at hc
      simp at hc
      simp [hc]
    | cons c0 rest =>
      cases c0 with
      | nil => exact absurd rfl (ih [] (h ▸ List.mem_cons_self [] rest))
      | cons f fs =>
        rw [h] at hc
        by_cases hk : lineKey e = lineKey f
        · simp only [if_pos hk] at hc
          rcases List.mem_cons.mp hc with h1 | h1
          · simp [h1]
          · exact ih c (h ▸ List.mem_cons_of_mem _ h1)
        · simp only [if_neg hk] at hc
          rcases List.mem_cons.mp hc with h1 | h1
          · simp [h1]
          · exact ih c (h ▸ h1)

theorem chunkByKey_flatten : ∀ l : List ParsedElement, (chunkByKey l).flatten = l := by
  intro l
  induction l with
  | nil => rfl
  | cons e es ih =>
    rw [chunkByKey_cons]
    cases h : chunkByKey es with
    | nil =>
      rw [h] at ih
      simp at ih
      simp [ih]
    | cons c0 rest =>
      rw [h] at ih
      cases c0 with
      | nil => simpa using ih
      | cons f fs =>
        by_cases hk : lineKey e = lineKey f
        · simp only [if_pos hk]
          simpa using ih
        · simp only [if_neg hk]
          simpa using ih

theorem chunkByKey_key_const : ∀ l : List ParsedElement, ∀ c ∈ chunkByKey l,
    ∀ a ∈ c, lineKey a = lineKey (c.headD default) := by
  intro l
  induction l with
  | nil => intro c hc; simp [chunkByKey] at hc
  | cons e es ih =>
    intro c hc a ha
    rw [chunkByKey_cons] at hc
    cases h : chunkByKey es with
    | nil =>
      rw [h] at hc
      simp at hc
      subst hc
      simp at ha
      simp [ha]
    | cons c0 rest =>
      rw [h] at hc
      cases c0 with
      | nil => exact absurd rfl (chunkByKey_ne_nil es [] (h ▸ List.mem_cons_self [] rest))
      | cons f fs =>
        by_cases hk : lineKey e = lineKey f
        · simp only [if_pos hk] at hc
          rcases List.mem_cons.mp hc with h1 | h1
          · subst h1
            rcases List.mem_cons.mp ha with h2 | h2
            · simp [h2]
            · have := ih (f :: fs) (h ▸ List.mem_cons_self _ rest) a h2
              simp at this ⊢
              rw [this, ← hk]
          · exact ih c (h ▸ List.mem_cons_of_mem _ h1) a ha
        · simp only [if_neg hk] at hc
          rcases List.mem_cons.mp hc with h1 | h1
          · subst h1
            simp at ha
            simp [ha]
          · exact ih c (h ▸ h1) a ha

theorem chunkByKey_pairwise (l : List ParsedElement)
    (hp : l.Pairwise (fun a b => lexLe2 (lineKey a) (lineKey b))) :
    (chunkByKey l).Pairwise
      (fun c d => ∀ a ∈ c, ∀ b ∈ d, lineKeyLt (lineKey a) (lineKey b)) := by
  induction l with
  | nil => simp [chunkByKey]
  | cons e es ih =>
    have hpe : ∀ b ∈ es, lexLe2 (lineKey e) (lineKey b) :=
      fun b hb => List.rel_of_pairwise_cons hp hb
    have hIH := ih (List.Pairwise.of_cons hp)
    rw [chunkByKey_cons]
    cases h : chunkByKey es with
    | nil => simp
    | cons c0 rest =>
      rw [h] at hIH
      cases c0 with
      | nil => exact absurd rfl (chunkByKey_ne_nil es [] (h ▸ List.mem_cons_self [] rest))
      | cons f fs =>
        have hfmem : f ∈ es := by
          have : f ∈ (chunkByKey es).flatten :=
            List.mem_flatten.mpr ⟨f :: fs, h ▸ List.mem_cons_self _ rest, List.mem_cons_self f fs⟩
          rwa [chunkByKey_flatten] at this
        have hrel : ∀ d ∈ rest, ∀ a ∈ f :: fs, ∀ b ∈ d,
            lineKeyLt (lineKey a) (lineKey b) :=
          fun d hd => List.rel_of_pairwise_cons hIH hd
        by_cases hk : lineKey e = lineKey f
        · simp only [if_pos hk]
          refine List.Pairwise.cons ?_ (List.Pairwise.of_cons hIH)
          intro d hd a ha b hb
          rcases List.mem_cons.mp ha with h1 | h1
          · subst h1
            rw [hk]
            exact hrel d hd f (List.mem_cons_self f fs) b hb
          · exact hrel d hd a h1 b hb
          
        · simp only [if_neg hk]
          have hlt : lineKeyLt (lineKey e) (lineKey f) := lexLe2_ne_lt (hpe f hfmem) hk
          refine List.Pairwise.cons ?_ hIH
          intro d hd a ha b hb
          simp at ha
          subst ha
          rcases List.mem_cons.mp hd with h1 | h1
          · subst h1
            have hbk := chunkByKey_key_const es (f :: fs) (h ▸ List.mem_cons_self _ rest) b hb
            simp at hbk
            rw [hbk]
            exact hlt
          · have := hrel d h1 f (List.mem_cons_self f fs) b hb
            exact lineKeyLt_trans hlt this

theorem foldl_min_mem : ∀ (xs : List ℚ) (x : ℚ), xs.foldl min x ∈ x :: xs := by
  intro xs
  induction xs with
  | nil => intro x; simp
  | cons y ys ih =>
    intro x
    rw [List.foldl_cons]
    rcases List.mem_cons.mp (ih (min x y)) with h | h
    · rw [h]
      rcases min_choice x y with h2 | h2 <;> simp [h2]
    · simp [h]

theorem listMinD_mem (d : ℚ) (l : List ℚ) (h : l ≠ []) : listMinD d l ∈ l := by
  cases l with
  | nil => exact absurd rfl h
  | cons x xs => exact foldl_min_mem xs x

theorem shouldContinue_same_page {mg ag : ℚ} {p l : Line}
    (h : shouldContinuePara mg ag p l = true) : linePage l = linePage p := by
  simp only [shouldContinuePara, Bool.and_eq_true, decide_eq_true_eq] at h
  exact h.1.1.1.1.1.1

theorem assembleAux_cons (mg ag : ℚ) (cur : List Line) (l : Line) (ls : List Line) :
    assembleAux mg ag cur (l :: ls) =
      if l = [] then assembleAux mg ag cur ls
      else if shouldContinuePara mg ag (cur.getLastD []) l then
        assembleAux mg ag (cur ++ [l]) ls
      else cur :: assembleAux mg ag [l] ls := by
  simp only [assembleAux]

theorem assembleAux_flatten (mg ag : ℚ) :
    ∀ (rest cur : List Line),
      (assembleAux mg ag cur rest).flatten = cur ++ rest.filter (· ≠ []) := by
  intro rest
  induction rest with
  | nil => intro cur; simp [assembleAux]
  | cons l ls ih =>
    intro cur
    rw [assembleAux_cons]
    by_cases hl : l = []
    · rw [if_pos hl, ih cur]
      simp [hl]
    · rw [if_neg hl]
      by_cases hc : shouldContinuePara mg ag (cur.getLastD []) l = true
      · rw [if_pos hc, ih (cur ++ [l])]
        simp [hl, List.append_assoc]
      · rw [if_neg hc]
        simp only [List.flatten_cons, ih [l]]
        simp [hl]

theorem assembleAux_groups (mg ag : ℚ) :
    ∀ (rest cur : List Line), cur ≠ [] →
      List.Chain' (fun a b => shouldContinuePara mg ag a b = true) cur →
      ∀ g ∈ assembleAux mg ag cur rest,
        g ≠ [] ∧ List.Chain' (fun a b => shouldContinuePara mg ag a b = true) g := by
  intro rest
  induction rest with
  | nil =>
    intro cur hne hch g hg
    simp [assembleAux] at hg
    subst hg
    exact ⟨hne, hch⟩
  | cons l ls ih =>
    intro cur hne hch g hg
    rw [assembleAux_cons] at hg
    by_cases hl : l = []
    · rw [if_pos hl] at hg
      exact ih cur hne hch g hg
    · rw [if_neg hl] at hg
      by_cases hc : shouldContinuePara mg ag (cur.getLastD []) l = true
      · rw [if_pos hc] at hg
        refine ih (cur ++ [l]) (by simp) ?_ g hg
        refine List.Chain'.append hch (List.chain'_singleton l) ?_
        intro x hx y hy
        simp at hy
        subst hy
        have hx2 : cur.getLastD [] = x := by
          rw [List.getLastD_eq_getLast?, hx]
          rfl
        rwa [hx2] at hc
      · rw [if_neg hc] at hg
        rcases List.mem_cons.mp hg with h1 | h1
        · subst h1
          exact ⟨hne, hch⟩
        · exact ih [l] (by simp) (List.chain'_singleton l) g h1

theorem assembleParas_flatten (mg ag : ℚ) :
    ∀ ls : List Line, (assembleParas mg ag ls).flatten = ls.filter (· ≠ []) := by
  intro ls
  induction ls with
  | nil => rfl
  | cons l ls ih =>
    simp only [assembleParas]
    by_cases hl : l = []
    · rw [if_pos hl, ih]
      simp [hl]
    · rw [if_neg hl, assembleAux_flatten]
      simp [hl]

theorem assembleParas_groups (mg ag : ℚ) :
    ∀ (ls : List Line), ∀ g ∈ assembleParas mg ag ls,
      g ≠ [] ∧ List.Chain' (fun a b => shouldContinuePara mg ag a b = true) g := by
  intro ls
  induction ls with
  | nil => intro g hg; simp [assembleParas] at hg
  | cons l ls ih =>
    intro g hg
    simp only [assembleParas] at hg
    by_cases hl : l = []
    · rw [if_pos hl] at hg
      exact ih g hg
    · rw [if_neg hl] at hg
      exact assembleAux_groups mg ag ls [l] (by simp) (List.chain'_singleton l) g hg

theorem chain'_page_const {mg ag : ℚ} : ∀ (g : List Line),
    List.Chain' (fun a b => shouldContinuePara mg ag a b = true) g →
    ∀ l ∈ g, linePage l = linePage (g.headD []) := by
  intro g
  induction g with
  | nil => simp
  | cons a as ih =>
    intro hc l hl
    rcases List.mem_cons.mp hl with h | h
    · subst h; simp
    · cases as with
      | nil => simp at h
      | cons b bs =>
        obtain ⟨hab, htail⟩ := List.chain'_cons.mp hc
        have h2 := ih htail l h
        rw [h2]
        simp only [List.headD_cons]
        exact shouldContinue_same_page hab

theorem headD_mem {α : Type} [Inhabited α] (l : List α) (h : l ≠ []) :
    l.headD default ∈ l := by
  cases l with
  | nil => exact absurd rfl h
  | cons x xs => simp

theorem create_para_pageNumber (g : List Line) (n : ℕ) (h : g.flatten ≠ []) :
    (_create_paragraph_dict g n).pageNumber = (g.flatten.headD default).pageNumber := by
  simp [_create_paragraph_dict, h]

theorem create_para_y0 (g : List Line) (n : ℕ) (h : g.flatten ≠ []) :
    (_create_paragraph_dict g n).bbox.2.1 =
      if (g.flatten.filterMap (fun s => s.bbox)) = [] then 0
      else listMinD 0 ((g.flatten.filterMap (fun s => s.bbox)).map (·.2.1)) := by
  simp only [_create_paragraph_dict, if_neg h]
  by_cases hb : (g.flatten.filterMap (fun s => s.bbox)) = []
  · rw [if_pos hb, if_pos hb]
  · rw [if_neg hb, if_neg hb]

theorem para_key_le (n1 n2 : ℕ) (g1 g2 : List Line)
    (h1 : g1.flatten ≠ []) (h2 : g2.flatten ≠ [])
    (hp1 : ∀ a ∈ g1.flatten, a.pageNumber = (g1.flatten.headD default).pageNumber)
    (hp2 : ∀ b ∈ g2.flatten, b.pageNumber = (g2.flatten.headD default).pageNumber)
    (hcross : ∀ a ∈ g1.flatten, ∀ b ∈ g2.flatten,
      lineKeyLt (lineKey a) (lineKey b)) :
    paraLe (_create_paragraph_dict g1 n1) (_create_paragraph_dict g2 n2) = true := by
  have ha0 : g1.flatten.headD default ∈ g1.flatten := headD_mem _ h1
  have hb0 : g2.flatten.headD default ∈ g2.flatten := headD_mem _ h2
  have hcross0 := hcross _ ha0 _ hb0
  simp only [paraLe, decide_eq_true_eq, lexLe2, paraSortKey]
  rw [create_para_pageNumber g1 n1 h1, create_para_pageNumber g2 n2 h2,
    create_para_y0 g1 n1 h1, create_para_y0 g2 n2 h2]
  rcases hcross0 with hlt | ⟨heq, _⟩
  · exact Or.inl hlt
  · have heqp : (g1.flatten.headD default).pageNumber
        = (g2.flatten.headD default).pageNumber := by simpa [lineKey] using heq
    refine Or.inr ⟨heqp, ?_⟩
    by_cases hb1 : (g1.flatten.filterMap (fun s => s.bbox)) = [] <;>
      by_cases hb2 : (g2.flatten.filterMap (fun s => s.bbox)) = []
    · rw [if_pos hb1, if_pos hb2]
    · rw [if_pos hb1, if_neg hb2]
      have hne2 : ((g2.flatten.filterMap (fun s => s.bbox)).map (·.2.1)) ≠ [] := by
        simpa using hb2
      obtain ⟨bb, hbb, hbbeq⟩ := List.mem_map.mp (listMinD_mem 0 _ hne2)
      obtain ⟨b, hbmem, hbbox⟩ := List.mem_filterMap.mp hbb
      have ha0none : (g1.flatten.headD default).bbox = none :=
        List.filterMap_eq_nil_iff.mp hb1 _ ha0
      have hkey := hcross _ ha0 _ hbmem
      have hpb := hp2 b hbmem
      rcases hkey with hk | ⟨_, hk⟩
      · exfalso
        simp only [lineKey] at hk
        omega
      · simp only [lineKey, ha0none, hbbox] at hk
        have hk0 : (0 : ℚ) < normalize_y (some bb) := by
          simpa [normalize_y] using hk
        have h52 := normY_pos_y0 hk0
        rw [← hbbeq]
        linarith
    · rw [if_neg hb1, if_pos hb2]
      have hne1 : ((g1.flatten.filterMap (fun s => s.bbox)).map (·.2.1)) ≠ [] := by
        simpa using hb1
      obtain ⟨ba, hba, hbaeq⟩ := List.mem_map.mp (listMinD_mem 0 _ hne1)
      obtain ⟨a, hamem, habox⟩ := List.mem_filterMap.mp hba
      have hb0none : (g2.flatten.headD default).bbox = none :=
        List.filterMap_eq_nil_iff.mp hb2 _ hb0
      have hkey := hcross _ hamem _ hb0
      have hpa := hp1 a hamem
      rcases hkey with hk | ⟨_, hk⟩
      · exfalso
        simp only [lineKey] at hk
        omega
      · simp only [lineKey, habox, hb0none] at hk
        have hk0 : normalize_y (some ba) < 0 := by
          simpa [normalize_y] using hk
        have h52 := normY_neg_y0 hk0
        rw [← hbaeq]
        linarith
    · rw [if_neg hb1, if_neg hb2]
      have hne1 : ((g1.flatten.filterMap (fun s => s.bbox)).map (·.2.1)) ≠ [] := by
        simpa using hb1
      have hne2 : ((g2.flatten.filterMap (fun s => s.bbox)).map (·.2.1)) ≠ [] := by
        simpa using hb2
      obtain ⟨ba, hba, hbaeq⟩ := List.mem_map.mp (listMinD_mem 0 _ hne1)
      obtain ⟨bb, hbb, hbbeq⟩ := List.mem_map.mp (listMinD_mem 0 _ hne2)
      obtain ⟨a, hamem, habox⟩ := List.mem_filterMap.mp hba
      obtain ⟨b, hbmem, hbbox⟩ := List.mem_filterMap.mp hbb
      have hkey := hcross _ hamem _ hbmem
      have hpa := hp1 a hamem
      have hpb := hp2 b hbmem
      rcases hkey with hk | ⟨_, hk⟩
      · exfalso
        simp only [lineKey] at hk
        omega
      · simp only [lineKey, habox, hbbox] at hk
        have := normY_lt_y0 hk
        rw [← hbaeq, ← hbbeq]
        linarith

theorem group_flatten_ne_nil (g : List Line) (hg : g ≠ [])
    (hlines : ∀ c ∈ g, c ≠ []) : g.flatten ≠ [] := by
  cases g with
  | nil => exact absurd rfl hg
  | cons c gs =>
    have hc := hlines c (List.mem_cons_self c gs)
    cases c with
    | nil => exact absurd rfl hc
    | cons x xs => simp

theorem group_flatten_headD (c0 : Line) (gs : List Line) (h0 : c0 ≠ []) :
    ((c0 :: gs) : List Line).flatten.headD default = c0.headD default := by
  cases c0 with
  | nil => exact absurd rfl h0
  | cons x xs => simp

theorem group_span_page (mg ag : ℚ) (g : List Line)
    (hchain : List.Chain' (fun a b => shouldContinuePara mg ag a b = true) g)
    (hkey : ∀ c ∈ g, ∀ a ∈ c, lineKey a = lineKey (c.headD default))
    (hlines : ∀ c ∈ g, c ≠ []) (hg : g ≠ []) :
    ∀ a ∈ g.flatten, a.pageNumber = (g.flatten.headD default).pageNumber := by
  intro a ha
  obtain ⟨c, hc, hac⟩ := List.mem_flatten.mp ha
  have h1 : a.pageNumber = (c.headD default).pageNumber :=
    congrArg Prod.fst (hkey c hc a hac)
  have h2 : linePage c = linePage (g.headD []) := chain'_page_const g hchain c hc
  cases g with
  | nil => exact absurd rfl hg
  | cons c0 gs =>
    have h0 : c0 ≠ [] := hlines c0 (List.mem_cons_self c0 gs)
    rw [group_flatten_headD c0 gs h0]
    rw [h1]
    have : linePage c = linePage c0 := by simpa using h2
    exact this

theorem groups_paraLe_pairwise (mg ag : ℚ) (l : List ParsedElement)
    (hp : l.Pairwise (fun a b => elemLe a b = true)) :
    ((assembleParas mg ag (chunkByKey l)).map
      (fun g => _create_paragraph_dict g g.length)).Pairwise
      (fun a b => paraLe a b = true) := by
  have hkeyc := chunkByKey_key_const l
  have hS := chunkByKey_pairwise l (hp.imp (fun h => elemLe_lineKey h))
  have hflat := assembleParas_flatten mg ag (chunkByKey l)
  have hgprops := assembleParas_groups mg ag (chunkByKey l)
  have hSf : ((chunkByKey l).filter (· ≠ [])).Pairwise
      (fun c d => ∀ a ∈ c, ∀ b ∈ d, lineKeyLt (lineKey a) (lineKey b)) :=
    hS.filter _
  rw [← hflat] at hSf
  have hcrossG := (List.pairwise_flatten.mp hSf).2
  have hmemlines : ∀ g ∈ assembleParas mg ag (chunkByKey l),
      ∀ c ∈ g, c ∈ chunkByKey l ∧ c ≠ [] := by
    intro g hg c hc
    have hmf : c ∈ (assembleParas mg ag (chunkByKey l)).flatten :=
      List.mem_flatten.mpr ⟨g, hg, hc⟩
    rw [hflat] at hmf
    have := List.mem_filter.mp hmf
    exact ⟨this.1, by simpa using this.2⟩
  rw [List.pairwise_map]
  refine List.Pairwise.imp_of_mem ?_ hcrossG
  intro g1 g2 hg1 hg2 hcr
  obtain ⟨hg1ne, hg1ch⟩ := hgprops g1 hg1
  obtain ⟨hg2ne, hg2ch⟩ := hgprops g2 hg2
  have hl1 : ∀ c ∈ g1, c ≠ [] := fun c hc => (hmemlines g1 hg1 c hc).2
  have hl2 : ∀ c ∈ g2, c ≠ [] := fun c hc => (hmemlines g2 hg2 c hc).2
  have hk1 : ∀ c ∈ g1, ∀ a ∈ c, lineKey a = lineKey (c.headD default) :=
    fun c hc => hkeyc c (hmemlines g1 hg1 c hc).1
  have hk2 : ∀ c ∈ g2, ∀ a ∈ c, lineKey a = lineKey (c.headD default) :=
    fun c hc => hkeyc c (hmemlines g2 hg2 c hc).1
  have hcross : ∀ a ∈ g1.flatten, ∀ b ∈ g2.flatten,
      lineKeyLt (lineKey a) (lineKey b) := by
    intro a ha b hb
    obtain ⟨c1, hc1, hac⟩ := List.mem_flatten.mp ha
    obtain ⟨c2, hc2, hbc⟩ := List.mem_flatten.mp hb
    exact hcr c1 hc1 c2 hc2 a hac b hbc
  exact para_key_le g1.length g2.length g1 g2
    (group_flatten_ne_nil g1 hg1ne hl1) (group_flatten_ne_nil g2 hg2ne hl2)
    (group_span_page mg ag g1 hg1ch hk1 hl1 hg1ne)
    (group_span_page mg ag g2 hg2ch hk2 hl2 hg2ne)
    hcross

theorem setGlobalIndexes_cons (n : ℕ) (p : Paragraph) (ps : List Paragraph) :
    setGlobalIndexes n (p :: ps) =
      { p with globalIndex := (n : ℤ) } :: setGlobalIndexes (n + 1) ps := by
  simp only [setGlobalIndexes]

theorem setGlobalIndexes_length : ∀ (n : ℕ) (ps : List Paragraph),
    (setGlobalIndexes n ps).length = ps.length := by
  intro n ps
  induction ps generalizing n with
  | nil => rfl
  | cons p ps ih => rw [setGlobalIndexes_cons, List.length_cons, List.length_cons, ih]

theorem setGlobalIndexes_mem : ∀ (n : ℕ) (ps : List Paragraph) (q : Paragraph),
    q ∈ setGlobalIndexes n ps → ∃ p ∈ ps, ∃ k : ℤ, q = { p with globalIndex := k } := by
  intro n ps
  induction ps generalizing n with
  | nil => intro q hq; simp [setGlobalIndexes] at hq
  | cons p ps ih =>
    intro q hq
    rw [setGlobalIndexes_cons] at hq
    rcases List.mem_cons.mp hq with h | h
    · exact ⟨p, List.mem_cons_self p ps, n, h⟩
    · obtain ⟨p0, hp0, k, hk⟩ := ih (n + 1) q h
      exact ⟨p0, List.mem_cons_of_mem p hp0, k, hk⟩

theorem paraLe_update (p q : Paragraph) (j k : ℤ) :
    paraLe { p with globalIndex := j } { q with globalIndex := k } = paraLe p q := rfl

theorem setGlobalIndexes_pairwise : ∀ (n : ℕ) (ps : List Paragraph),
    ps.Pairwise (fun a b => paraLe a b = true) →
    (setGlobalIndexes n ps).Pairwise (fun a b => paraLe a b = true) := by
  intro n ps
  induction ps generalizing n with
  | nil => intro _; simp [setGlobalIndexes]
  | cons p ps ih =>
    intro hp
    rw [setGlobalIndexes_cons]
    refine List.Pairwise.cons ?_ (ih (n + 1) (List.Pairwise.of_cons hp))
    intro q hq
    obtain ⟨q0, hq0, k, hk⟩ := setGlobalIndexes_mem (n + 1) ps q hq
    rw [hk, paraLe_update]
    exact List.rel_of_pairwise_cons hp hq0

theorem setGlobalIndexes_map_range : ∀ (ps : List Paragraph) (n : ℕ),
    (setGlobalIndexes n ps).map (·.globalIndex) =
      (List.range' n ps.length).map Int.ofNat := by
  intro ps
  induction ps with
  | nil => intro n; rfl
  | cons p ps ih =>
    intro n
    rw [setGlobalIndexes_cons, List.map_cons, List.length_cons, List.range'_succ,
      List.map_cons, ih (n + 1)]
    rfl

/-- The paragraph list of `_normalize_elements_to_paragraphs` carries the
global ordinals `0, 1, 2, …` in final list order: the pre-sort order
already agrees with the `(page, top-of-bbox)` sort key, so the stable sort
is the identity on the indexed list. -/
theorem normalize_global_ordinals (elems : List ParsedElement) :
    (_normalize_elements_to_paragraphs elems).1.map (·.globalIndex) =
      (List.range (_normalize_elements_to_paragraphs elems).1.length).map
        Int.ofNat := by
  have hp0 : (elems.mergeSort elemLe).Pairwise (fun a b => elemLe a b = true) :=
    List.sorted_mergeSort elemLe_trans elemLe_total elems
  have hp1 : ((elems.mergeSort elemLe).filter
      (fun e => e.type = "text" && e.text ≠ "")).Pairwise
      (fun a b => elemLe a b = true) := hp0.filter _
  simp only [_normalize_elements_to_paragraphs]
  rw [List.mergeSort_of_sorted
    (setGlobalIndexes_pairwise 0 _ (groups_paraLe_pairwise _ _ _ hp1))]
  rw [setGlobalIndexes_length, List.range_eq_range']
  exact setGlobalIndexes_map_range _ 0

/-- The paragraph at list position `i` has global ordinal `i`. -/
theorem paras_globalIndex (elems : List ParsedElement) :
    ∀ (i : ℕ) (p : Paragraph),
      (_normalize_elements_to_paragraphs elems).1[i]? = some p →
      p.globalIndex = (i : ℤ) := by
  intro i p h
  have hi : i < (_normalize_elements_to_paragraphs elems).1.length :=
    (List.getElem?_eq_some.mp h).1
  have h1 : ((_normalize_elements_to_paragraphs elems).1.map
      (·.globalIndex))[i]? = some p.globalIndex := by
    rw [List.getElem?_map, h]
    rfl
  rw [normalize_global_ordinals elems, List.getElem?_map,
    List.getElem?_range hi] at h1
  exact (Option.some.inj h1).symm

/-- C1: the paragraph list returned by `_normalize_elements_to_paragraphs`
carries global ordinals that, after the final stable sort by
`(page, top-of-bbox)`, are exactly `0, 1, 2, …` in list order — unique and
monotonically increasing. -/
theorem c1_global_ordinals_in_order (elems : List ParsedElement) :
    (_normalize_elements_to_paragraphs elems).1.map (·.globalIndex) =
      (List.range (_normalize_elements_to_paragraphs elems).1.length).map
        Int.ofNat :=
  normalize_global_ordinals elems

/-! ## C2: the page-count law -/

theorem identify_go_length (paras : List Paragraph) (thr med : ℚ) :
    ∀ (j : ℕ) (sub : List Paragraph),
      (_identify_headers_go paras thr med j sub).1.length = sub.length := by
  intro j sub
  induction sub generalizing j with
  | nil => rfl
  | cons p ps ih =>
    simp only [_identify_headers_go]
    split_ifs <;> simp [ih (j + 1)]

theorem identify_go_headers (paras : List Paragraph) (thr med : ℚ) :
    ∀ (j : ℕ) (sub : List Paragraph),
      (∀ (i : ℕ) (p : Paragraph), sub[i]? = some p →
        p.globalIndex = ((j + i : ℕ) : ℤ)) →
      (∀ h ∈ (_identify_headers_go paras thr med j sub).2,
          (j : ℤ) ≤ h.index ∧ h.index < ((j + sub.length : ℕ) : ℤ)) ∧
      (_identify_headers_go paras thr med j sub).2.Pairwise
        (fun h1 h2 => h1.index < h2.index) := by
  intro j sub
  induction sub generalizing j with
  | nil =>
    intro _
    refine ⟨?_, by simp [_identify_headers_go]⟩
    intro h hh
    simp [_identify_headers_go] at hh
  | cons p ps ih =>
    intro hidx
    have hidx0 : p.globalIndex = (j : ℤ) := by
      have := hidx 0 p (by simp)
      simpa using this
    have hidxs : ∀ (i : ℕ) (q : Paragraph), ps[i]? = some q →
        q.globalIndex = (((j + 1) + i : ℕ) : ℤ) := by
      intro i q hq
      have := hidx (i + 1) q (by simpa using hq)
      rw [this]
      congr 1
      omega
    obtain ⟨ihb, ihp⟩ := ih (j + 1) hidxs
    have hbw : ∀ h ∈ (_identify_headers_go paras thr med (j + 1) ps).2,
        (j : ℤ) ≤ h.index ∧ h.index < ((j + (p :: ps).length : ℕ) : ℤ) := by
      intro h hh
      obtain ⟨l, r⟩ := ihb h hh
      refine ⟨by omega, ?_⟩
      simp only [List.length_cons]
      omega
    simp only [_identify_headers_go]
    split_ifs with h1 h2 h3
    · exact ⟨hbw, ihp⟩
    · exact ⟨hbw, ihp⟩
    · refine ⟨?_, ?_⟩
      · intro h hh
        rcases List.mem_cons.mp hh with he | he
        · subst he
          simp only [hidx0, List.length_cons]
          constructor
          · omega
          · push_cast
            omega
        · exact hbw h he
      · refine List.Pairwise.cons ?_ ihp
        intro h' hh'
        have := (ihb h' hh').1
        simp only [hidx0]
        push_cast at this ⊢
        omega
    · exact ⟨hbw, ihp⟩

theorem pySlice_length {α : Type} (l : List α) (a b : ℤ) :
    (pySlice l a b).length = min b.toNat l.length - a.toNat := by
  simp [pySlice, List.length_drop, List.length_take]

theorem pySlice_ne_nil {α : Type} (l : List α) (a b : ℤ)
    (ha : 0 ≤ a) (hab : a < b) (hal : a < (l.length : ℤ)) :
    pySlice l a b ≠ [] := by
  intro hcontra
  have h1 := pySlice_length l a b
  rw [hcontra] at h1
  simp at h1
  omega

theorem buildPagesGo_cons (paras : List Paragraph) (allH : List Header)
    (images : List ParsedElement) (k : ℤ) (h : Header) (hs : List Header) :
    buildPagesGo paras allH images k (h :: hs) =
      if pySlice paras h.index (match hs.head? with
          | some h2 => h2.index
          | none => (paras.length : ℤ)) = [] then
        buildPagesGo paras allH images k hs
      else
        _build_single_page_from_paragraphs
            (pySlice paras h.index (match hs.head? with
              | some h2 => h2.index
              | none => (paras.length : ℤ)))
            (h.text.trim.take 100) k allH images
          :: buildPagesGo paras allH images (k + 1) hs := by
  simp only [buildPagesGo]

theorem buildPagesGo_length (paras : List Paragraph) (allH : List Header)
    (images : List ParsedElement) :
    ∀ (L : List Header) (k : ℤ),
      (∀ h ∈ L, 0 ≤ h.index ∧ h.index < (paras.length : ℤ)) →
      L.Pairwise (fun h1 h2 => h1.index < h2.index) →
      (buildPagesGo paras allH images k L).length = L.length := by
  intro L
  induction L with
  | nil => intro k _ _; rfl
  | cons h hs ih =>
    intro k hb hp
    have hbh := hb h (List.mem_cons_self h hs)
    have hnext : h.index < (match hs.head? with
        | some h2 => h2.index
        | none => (paras.length : ℤ)) := by
      cases hs with
      | nil => simpa using hbh.2
      | cons h2 t =>
        simp only [List.head?_cons]
        exact List.rel_of_pairwise_cons hp (List.mem_cons_self h2 t)
    have hne := pySlice_ne_nil paras h.index _ hbh.1 hnext hbh.2
    rw [buildPagesGo_cons, if_neg hne, List.length_cons, List.length_cons,
      ih (k + 1) (fun x hx => hb x (List.mem_cons_of_mem h hx))
        (List.Pairwise.of_cons hp)]

/-- C2: for every fragment stream, the reconstructed section list contains
exactly one Section, and its number of Pages equals the number of level-1
headers found (falling back to all headers when no header has level 1), or
exactly 1 when no headers were found at all.  Stated for any header
threshold and median (the builder computes particular values). -/
theorem c2_page_count_law (elems : List ParsedElement) (thr med : ℚ)
    (images : List ParsedElement) :
    (_build_sections_from_paragraphs
        (_identify_headers_from_paragraphs
          (_normalize_elements_to_paragraphs elems).1 thr med).1
        (_identify_headers_from_paragraphs
          (_normalize_elements_to_paragraphs elems).1 thr med).2
        thr images).length = 1 ∧
    ((_build_sections_from_paragraphs
        (_identify_headers_from_paragraphs
          (_normalize_elements_to_paragraphs elems).1 thr med).1
        (_identify_headers_from_paragraphs
          (_normalize_elements_to_paragraphs elems).1 thr med).2
        thr images).headD emptySection).pages.length =
      (if (_identify_headers_from_paragraphs
            (_normalize_elements_to_paragraphs elems).1 thr med).2 = [] then 1
       else
        (if ((_identify_headers_from_paragraphs
                (_normalize_elements_to_paragraphs elems).1 thr med).2.filter
                (·.level = 1)) = [] then
          (_identify_headers_from_paragraphs
            (_normalize_elements_to_paragraphs elems).1 thr med).2
         else
          ((_identify_headers_from_paragraphs
              (_normalize_elements_to_paragraphs elems).1 thr med).2.filter
              (·.level = 1))).length) := by
  have hidx : ∀ (i : ℕ) (p : Paragraph),
      (_normalize_elements_to_paragraphs elems).1[i]? = some p →
      p.globalIndex = ((0 + i : ℕ) : ℤ) := by
    intro i p h
    rw [paras_globalIndex elems i p h]
    norm_num
  obtain ⟨hb, hp⟩ := identify_go_headers
    (_normalize_elements_to_paragraphs elems).1 thr med 0
    (_normalize_elements_to_paragraphs elems).1 hidx
  have hgo : _identify_headers_from_paragraphs
      (_normalize_elements_to_paragraphs elems).1 thr med =
      _identify_headers_go (_normalize_elements_to_paragraphs elems).1 thr med 0
        (_normalize_elements_to_paragraphs elems).1 := rfl
  constructor
  · by_cases hh : (_identify_headers_from_paragraphs
        (_normalize_elements_to_paragraphs elems).1 thr med).2 = [] <;>
      simp [_build_sections_from_paragraphs, hh]
  · by_cases hh : (_identify_headers_from_paragraphs
        (_normalize_elements_to_paragraphs elems).1 thr med).2 = []
    · simp [_build_sections_from_paragraphs, hh]
    · rw [if_neg hh]
      simp only [_build_sections_from_paragraphs, if_neg hh, List.headD_cons]
      have hsub : (if ((_identify_headers_from_paragraphs
            (_normalize_elements_to_paragraphs elems).1 thr med).2.filter
            (·.level = 1)) = [] then
          (_identify_headers_from_paragraphs
            (_normalize_elements_to_paragraphs elems).1 thr med).2
        else ((_identify_headers_from_paragraphs
            (_normalize_elements_to_paragraphs elems).1 thr med).2.filter
            (·.level = 1))).Sublist
          (_identify_headers_from_paragraphs
            (_normalize_elements_to_paragraphs elems).1 thr med).2 := by
        split
        · exact List.Sublist.refl _
        · exact List.filter_sublist _
      refine buildPagesGo_length _ _ _ _ 1 ?_ (hp.sublist hsub)
      intro h hmem
      have hmem2 := hsub.mem hmem
      rw [hgo] at hmem2
      obtain ⟨l, r⟩ := hb h hmem2
      rw [hgo, identify_go_length]
      refine ⟨by omega, ?_⟩
      simpa using r

/-! ## C3 and C5: content of reconstructed pages -/

theorem mem_of_mem_insertIdx {α : Type} {a b : α} {n : ℕ} {l : List α}
    (h : a ∈ List.insertIdx n b l) : a = b ∨ a ∈ l := by
  by_cases hn : n ≤ l.length
  · exact (List.mem_insertIdx hn).mp h
  · rw [List.insertIdx_of_length_lt l b n (by omega)] at h
    exact Or.inr h

theorem placeImageStep_mem (textParas : List Paragraph) (pageHeight : ℚ)
    (blocks : List ContentBlock) (img : ParsedElement) (b : ContentBlock)
    (hb : b ∈ placeImageStep textParas pageHeight blocks img) :
    b ∈ blocks ∨
      (placesBlock textParas pageHeight img = true ∧
        ∃ w hh, b = ContentBlock.image (normBlockPath img.imagePath) "" w hh) := by
  unfold placeImageStep at hb
  unfold placesBlock
  cases hbb : img.bbox with
  | none => rw [hbb] at hb; exact Or.inl hb
  | some bb =>
    rw [hbb] at hb
    dsimp only at hb ⊢
    by_cases h1 : img.imagePath = ""
    · rw [if_pos h1] at hb
      simp only [if_pos h1]
      exact Or.inl hb
    · rw [if_neg h1] at hb
      by_cases h2 : img.imagePath.startsWith "blob:" = true
      · rw [if_pos h2] at hb
        simp only [if_neg h1, if_pos h2]
        exact Or.inl hb
      · rw [if_neg h2] at hb
        simp only [if_neg h1, if_neg h2]
        set big := decide ((if pageHeight > 0 then
          (bb.2.2.2 - bb.2.1) / pageHeight * 100 else 0) > 60) with hbig
        set near := textParas.any fun p =>
          decide (|(bb.2.1 + bb.2.2.2) / 2 - (p.bbox.2.1 + p.bbox.2.2.2) / 2| < 100)
          with hnear
        by_cases h3 : (big && !near) = true
        · rw [if_pos h3] at hb
          exact Or.inl hb
        · rw [if_neg h3] at hb
          have hplace : (!(big && !near)) = true := by
            simp only [Bool.not_eq_true] at h3
            simp [h3]
          refine ?_
          rcases hmatch : findTargetBlockIdx blocks bb.2.1 with _ | i
          · rw [hmatch] at hb
            rcases hmn : _find_nearest_text_block_for_image blocks img with _ | i2
            · rw [hmn] at hb
              rcases List.mem_append.mp hb with h4 | h4
              · exact Or.inl h4
              · simp at h4
                exact Or.inr ⟨hplace, _, _, h4⟩
            · rw [hmn] at hb
              rcases mem_of_mem_insertIdx hb with h4 | h4
              · exact Or.inr ⟨hplace, _, _, h4⟩
              · exact Or.inl h4
          · rw [hmatch] at hb
            rcases mem_of_mem_insertIdx hb with h4 | h4
            · exact Or.inr ⟨hplace, _, _, h4⟩
            · exact Or.inl h4

theorem placeImageStep_of_not_places (textParas : List Paragraph) (pageHeight : ℚ)
    (blocks : List ContentBlock) (img : ParsedElement)
    (h : placesBlock textParas pageHeight img = false) :
    placeImageStep textParas pageHeight blocks img = blocks := by
  unfold placeImageStep
  unfold placesBlock at h
  cases hbb : img.bbox with
  | none => rfl
  | some bb =>
    rw [hbb] at h
    dsimp only at h ⊢
    by_cases h1 : img.imagePath = ""
    · rw [if_pos h1]
    · rw [if_neg h1] at h ⊢
      by_cases h2 : img.imagePath.startsWith "blob:" = true
      · rw [if_pos h2]
      · rw [if_neg h2] at h ⊢
        simp only [Bool.not_eq_false'] at h
        rw [if_pos h]

theorem foldl_place_mem (textParas : List Paragraph) (pageHeight : ℚ) :
    ∀ (imgs : List ParsedElement) (blocks : List ContentBlock) (b : ContentBlock),
      b ∈ imgs.foldl (placeImageStep textParas pageHeight) blocks →
      b ∈ blocks ∨ ∃ img ∈ imgs,
        placesBlock textParas pageHeight img = true ∧
        ∃ w hh, b = ContentBlock.image (normBlockPath img.imagePath) "" w hh := by
  intro imgs
  induction imgs with
  | nil => intro blocks b hb; exact Or.inl hb
  | cons i is ih =>
    intro blocks b hb
    rw [List.foldl_cons] at hb
    rcases ih _ b hb with h | ⟨img, hmem, hpl, w, hh, heq⟩
    · rcases placeImageStep_mem textParas pageHeight blocks i b h with h2 | ⟨hpl, w, hh, heq⟩
      · exact Or.inl h2
      · exact Or.inr ⟨i, List.mem_cons_self i is, hpl, w, hh, heq⟩
    · exact Or.inr ⟨img, List.mem_cons_of_mem i hmem, hpl, w, hh, heq⟩

/-- C3: no Text ContentBlock on a reconstructed page originates from a
paragraph flagged as a header: every text block's source paragraph has
`is_header` unset and its global ordinal does not appear in the recorded
header list. -/
theorem c3_no_header_text_blocks (paras : List Paragraph) (title : String)
    (order : ℤ) (allHeaders : List Header) (allImages : List ParsedElement) :
    ∀ b ∈ (_build_single_page_from_paragraphs paras title order allHeaders
        allImages).contentBlocks,
      ∀ (c : String) (fs : ℚ) (bd : Bool) (al : String) (sp : Paragraph),
        b = ContentBlock.text c fs bd al sp →
        sp.isHeader = false ∧ sp.globalIndex ∉ allHeaders.map (·.index) := by
  intro b hb c fs bd al sp hbe
  simp only [_build_single_page_from_paragraphs] at hb
  rcases foldl_place_mem _ _ _ _ b hb with h | ⟨img, _, _, w, hh, heq⟩
  · obtain ⟨p, hp, hpe⟩ := List.mem_map.mp h
    rw [hbe] at hpe
    have hsp : p = sp := by
      injection hpe
    simp only [pageTextParas, List.mem_filter] at hp
    have hpred := hp.2
    simp only [Bool.and_eq_true, decide_eq_true_eq, Bool.not_eq_true',
      Bool.or_eq_false_iff] at hpred
    rw [← hsp]
    refine ⟨hpred.2.1, ?_⟩
    intro hmem
    have hcont := hpred.2.2
    have htrue : (List.map (fun x => x.index) allHeaders).contains p.globalIndex
        = true := List.elem_iff.mpr hmem
    rw [htrue] at hcont
    simp at hcont
  · rw [hbe] at heq
    simp at heq

set_option maxHeartbeats 2000000 in
set_option maxRecDepth 8000 in
theorem c3_no_header_text_blocks_witness :
    paraIntro.isHeader = false ∧
    paraIntro.globalIndex ∉ ([] : List Header).map (·.index) :=
  c3_no_header_text_blocks [paraIntro] "Страница 1" 1 [] []
    (ContentBlock.text paraIntro.text paraIntro.avgFontSize paraIntro.isBold
      "left" paraIntro)
    (by with_unfolding_all decide) paraIntro.text paraIntro.avgFontSize
    paraIntro.isBold "left" paraIntro rfl

/-- C5: an image whose height exceeds 60% of the estimated page height and
whose vertical center is at least 100 units from every text paragraph's
center is not placeable, and — since every image on the page with its
normalized path is then unplaceable — no ImageBlock carrying that path
appears among the page's content blocks. -/
theorem c5_oversized_orphan_image_dropped (paras : List Paragraph)
    (title : String) (order : ℤ) (allHeaders : List Header)
    (allImages : List ParsedElement) (img : ParsedElement)
    (bb : ℚ × ℚ × ℚ × ℚ) (hbb : img.bbox = some bb)
    (hbig : (if pageHeightOf paras > 0 then
        (bb.2.2.2 - bb.2.1) / pageHeightOf paras * 100 else 0) > 60)
    (hfar : ∀ p ∈ pageTextParas paras allHeaders,
      ¬(|(bb.2.1 + bb.2.2.2) / 2 - (p.bbox.2.1 + p.bbox.2.2.2) / 2| < 100)) :
    placesBlock (pageTextParas paras allHeaders) (pageHeightOf paras) img = false ∧
    ((∀ j ∈ pageImagesFor paras allImages,
        normBlockPath j.imagePath = normBlockPath img.imagePath →
        placesBlock (pageTextParas paras allHeaders) (pageHeightOf paras) j = false) →
      ∀ b ∈ (_build_single_page_from_paragraphs paras title order allHeaders
          allImages).contentBlocks,
        ∀ (a : String) (w hh : Option ℚ),
          b ≠ ContentBlock.image (normBlockPath img.imagePath) a w hh) := by
  have hnear : (pageTextParas paras allHeaders).any (fun p =>
      decide (|(bb.2.1 + bb.2.2.2) / 2 - (p.bbox.2.1 + p.bbox.2.2.2) / 2| < 100))
        = false := by
    rw [List.any_eq_false]
    intro p hp
    simp only [decide_eq_true_eq]
    exact hfar p hp
  have hplace : placesBlock (pageTextParas paras allHeaders)
      (pageHeightOf paras) img = false := by
    unfold placesBlock
    rw [hbb]
    dsimp only
    by_cases h1 : img.imagePath = ""
    · rw [if_pos h1]
    · rw [if_neg h1]
      by_cases h2 : img.imagePath.startsWith "blob:" = true
      · rw [if_pos h2]
      · rw [if_neg h2]
        rw [hnear]
        simp [hbig]
  refine ⟨hplace, ?_⟩
  intro huniq b hb a w hh hbe
  simp only [_build_single_page_from_paragraphs] at hb
  rcases foldl_place_mem _ _ _ _ b hb with h | ⟨j, hjmem, hjpl, w2, hh2, heq⟩
  · obtain ⟨p, _, hpe⟩ := List.mem_map.mp h
    rw [hbe] at hpe
    simp at hpe
  · have hjmem2 : j ∈ pageImagesFor paras allImages := List.mem_mergeSort.mp hjmem
    rw [hbe] at heq
    simp only [ContentBlock.image.injEq] at heq
    have hcontent : normBlockPath j.imagePath = normBlockPath img.imagePath :=
      heq.1.symm
    have hdrop := huniq j hjmem2 hcontent
    rw [hdrop] at hjpl
    exact absurd hjpl (by simp)

set_option maxHeartbeats 2000000 in
set_option maxRecDepth 8000 in
theorem c5_oversized_orphan_image_dropped_witness :
    placesBlock (pageTextParas [paraText100] []) (pageHeightOf [paraText100])
      imgTall = false ∧
    ((∀ j ∈ pageImagesFor [paraText100] [imgTall],
        normBlockPath j.imagePath = normBlockPath imgTall.imagePath →
        placesBlock (pageTextParas [paraText100] []) (pageHeightOf [paraText100]) j
          = false) →
      ∀ b ∈ (_build_single_page_from_paragraphs [paraText100] "Страница 1" 1 []
          [imgTall]).contentBlocks,
        ∀ (a : String) (w hh : Option ℚ),
          b ≠ ContentBlock.image (normBlockPath imgTall.imagePath) a w hh) :=
  c5_oversized_orphan_image_dropped [paraText100] "Страница 1" 1 [] [imgTall]
    imgTall (0, 515, 100, 585) (by with_unfolding_all decide)
    (by with_unfolding_all decide) (by with_unfolding_all decide)
